import Mathlib

/-
  Verification of the Taurion game-state processor (GSP) against its
  specification.

  The development shallowly embeds the data model and the per-block
  state-update pipeline of the GSP.  Components whose implementation is
  present in the repository sources (the pathfinder stepper, the character
  spawning routine) are translated directly from those sources.  Components
  whose implementation is not part of the provided sources (the move
  processor, the combat subsystem, damage lists, the pending-move
  projection) are modelled from the specification's words; each such
  definition carries a doc comment starting with "Modelled from the spec:"
  naming the missing piece.  The repository's unit tests are used to pin
  down behaviour where the spec's words leave latitude.
-/

namespace Taurion

/-! ## Hex coordinates -/

/-- Axial hex coordinate, translated from `hexagonal/coord.hpp` usage:
a signed pair `(x, y)`. -/
structure HexCoord where
  x : Int
  y : Int
deriving DecidableEq, Repr

/-- L1 distance between two hexes, from the spec's formula
`(|x| + |y| + |x + y|) / 2` applied to the coordinate difference. -/
def hexDist (a b : HexCoord) : Nat :=
  ((a.x - b.x).natAbs + (a.y - b.y).natAbs + ((a.x - b.x) + (a.y - b.y)).natAbs) / 2

/-- Modelled from the spec: neighbour enumeration of a hex in a fixed
angular order (`coord.cpp` is not among the provided sources; the spec
fixes only that the order is a fixed angular one, used as tie-breaker). -/
def HexCoord.neighbours (c : HexCoord) : List HexCoord :=
  [⟨c.x + 1, c.y⟩, ⟨c.x + 1, c.y - 1⟩, ⟨c.x, c.y - 1⟩,
   ⟨c.x - 1, c.y⟩, ⟨c.x - 1, c.y + 1⟩, ⟨c.x, c.y + 1⟩]

/-! ## Factions and basic combat data -/

/-- Faction of an account / character, from `database/faction.hpp` usage. -/
inductive Faction where
  | red
  | green
  | blue
  | ancient
deriving DecidableEq, Repr

/-- One attack of a fighter's combat data: range and damage interval,
from the `proto::Attack` fields used by the tests. -/
structure Attack where
  range : Nat
  dmgMin : Nat
  dmgMax : Nat
deriving DecidableEq, Repr

/-- Hit points of a fighter: armour, shield and the shield's milli-HP
fraction, from the `proto::HP` fields used by the tests. -/
structure HP where
  armour : Nat
  shield : Nat
  shieldMhp : Nat
deriving DecidableEq, Repr

/-- Regeneration data of a fighter: maximum HP and the shield
regeneration rate in milli-HP per block, from `proto::RegenData`. -/
structure RegenData where
  maxHp : HP
  shieldRegenMhp : Nat
deriving DecidableEq, Repr

/-! ## Movement state -/

/-- The persistent movement proto of a character: the ordered waypoint
queue and the cached path steps, from `proto::Movement`. -/
structure Movement where
  waypoints : List HexCoord
  steps : List HexCoord
deriving DecidableEq, Repr

/-! ## Characters and the game state -/

/-- A character row with the fields the verified claims touch, from the
character data model of the spec (section 3) and `database/character`.
`partStep` is the volatile partial-step accumulator. -/
structure Character where
  id : Nat
  owner : String
  faction : Faction
  pos : HexCoord
  speed : Nat
  partStep : Nat
  movement : Option Movement
  busy : Nat
  ongoing : Option Nat
  attacks : List Attack
  hp : HP
  regen : RegenData
  target : Option Nat
deriving DecidableEq, Repr

/-- A prospection result stored on a region, from `proto::Prospection`:
the name of the prospecting account and the height it finished at. -/
structure RegionProspection where
  name : String
  height : Nat
deriving DecidableEq, Repr

/-- A region row: the id of the character currently prospecting it
(0 for none) and its prospection result, from `database/region` usage. -/
structure Region where
  prospectingCharacter : Nat
  prospection : Option RegionProspection
deriving DecidableEq, Repr

/-- Modelled from the spec: an ongoing Prospection operation
(`database/ongoing` is not among the provided sources); it references its
carrier character and the region being prospected. -/
structure OngoingOp where
  id : Nat
  characterId : Nat
  regionId : Nat
deriving DecidableEq, Repr

/-- One damage-list row: victim, attacker and the height of the last hit,
from the damage-list data model of the spec (section 3). -/
structure DLEntry where
  victim : Nat
  attacker : Nat
  height : Nat
deriving DecidableEq, Repr

/-- The part of the game state the verified claims touch: the character
table, the region table (an association list keyed by region id), the
ongoing-operations table, the damage lists, the per-account kills
counters, and the id allocator. -/
structure GameState where
  characters : List Character
  regions : List (Nat × Region)
  ongoings : List OngoingOp
  damageLists : List DLEntry
  kills : List (String × Nat)
  nextId : Nat
deriving DecidableEq, Repr

/-- Looks a character up by id, as `CharacterTable::GetById`. -/
def findChar (st : GameState) (cid : Nat) : Option Character :=
  st.characters.find? (fun c => c.id = cid)

/-- Rewrites the row of the character with the given id. -/
def updateChar (st : GameState) (cid : Nat) (f : Character → Character) : GameState :=
  { st with characters := st.characters.map (fun c => if c.id = cid then f c else c) }

/-- Looks a region up by id; regions exist implicitly and default to the
empty row, per the spec's data model (row written only when non-default). -/
def getRegion (st : GameState) (rid : Nat) : Region :=
  match st.regions.find? (fun r => r.1 = rid) with
  | some r => r.2
  | none => ⟨0, none⟩

/-- Inserts or replaces a region row in the association list. -/
def upsertRegion : List (Nat × Region) → Nat → Region → List (Nat × Region)
  | [], k, v => [(k, v)]
  | (k', v') :: rest, k, v =>
      if k' = k then (k, v) :: rest else (k', v') :: upsertRegion rest k v

/-- Writes a region row back. -/
def setRegion (st : GameState) (rid : Nat) (r : Region) : GameState :=
  { st with regions := upsertRegion st.regions rid r }

/-- Bumps an account's kills counter by one, creating the row if needed. -/
def bumpKills : List (String × Nat) → String → List (String × Nat)
  | [], k => [(k, 1)]
  | (k', v) :: rest, k =>
      if k' = k then (k', v + 1) :: rest else (k', v) :: bumpKills rest k

/-- Reads an account's kills counter (0 when the row is absent). -/
def lookupKills : List (String × Nat) → String → Nat
  | [], _ => 0
  | (k', v) :: rest, k => if k' = k then v else lookupKills rest k

/-! ## Deterministic RNG -/

/-- Modelled from the spec: the deterministic RNG stream seeded from the
block hash; drawn values are consumed in order from an abstract stream. -/
structure Rnd where
  seq : Nat → Nat
  idx : Nat

/-- Draws the next raw value from the stream. -/
def rndNext (r : Rnd) : Nat × Rnd :=
  (r.seq r.idx, { r with idx := r.idx + 1 })

/-! ## JSON move values -/

/-- A JSON value as far as move parsing is concerned.  `num` is an
integral number; `fnum` stands for any JSON number that is not integral
(such as `4.5`), which the move parser must reject wherever an integer is
expected. -/
inductive JsonVal where
  | null
  | boolean (b : Bool)
  | num (n : Int)
  | fnum
  | str (s : String)
  | arr (xs : List JsonVal)
  | obj (fields : List (String × JsonVal))

/-- Looks a field of a JSON object field list up by name. -/
def lookupField : List (String × JsonVal) → String → Option JsonVal
  | [], _ => none
  | (k, v) :: rest, key => if k = key then some v else lookupField rest key

/-- Whether a JSON value is an object. -/
def isObjVal : JsonVal → Bool
  | .obj _ => true
  | _ => false

/-- One entry of a block's moves array: the account name and the parsed
move value. -/
structure MoveEntry where
  name : String
  mv : JsonVal

/-! ## Move parsing -/

/-- Modelled from the spec: the canonical decimal id-string check of the
move validator (section 4.7: "each key must be a canonical decimal id
string (no whitespace, no leading zeros except 0)"); the implementation
is not among the provided sources. -/
def parseIdString (s : String) : Option Nat :=
  match s.toList with
  | [] => none
  | c :: rest =>
      if (c :: rest).all Char.isDigit ∧ (c ≠ '0' ∨ rest = []) then
        some ((c :: rest).foldl (fun n ch => 10 * n + (ch.toNat - 48)) 0)
      else none

/-- Modelled from the spec: parsing one waypoint, an object with integer
`x` and `y` members (`CoordFromJson` is not among the provided sources). -/
def jsonToCoord : JsonVal → Option HexCoord
  | .obj fields =>
      match lookupField fields "x", lookupField fields "y" with
      | some (.num vx), some (.num vy) => some ⟨vx, vy⟩
      | _, _ => none
  | _ => none

/-- Parses a list of waypoint objects, failing if any element fails. -/
def parseCoordList : List JsonVal → Option (List HexCoord)
  | [] => some []
  | v :: vs =>
      match jsonToCoord v, parseCoordList vs with
      | some c, some cs => some (c :: cs)
      | _, _ => none

/-- Modelled from the spec: a `wp` value is valid iff it is an array of
waypoint objects (section 6: `wp` is an "array of `\x7bx:int, y:int\x7d`"). -/
def parseWaypoints : JsonVal → Option (List HexCoord)
  | .arr xs => parseCoordList xs
  | _ => none

/-! ## Move application: character-update sub-intents -/

/-- Replaces a character's movement by the given waypoint list: the
partial step accumulator is reset and the cached steps are cleared; an
empty list clears the movement proto entirely (spec section 8, boundary
behaviours). -/
def setWaypointsChar (wps : List HexCoord) (c : Character) : Character :=
  { c with partStep := 0,
           movement := if wps.isEmpty then none else some ⟨wps, []⟩ }

/-- Modelled from the spec: the `wp` sub-intent handler of the move
processor (not among the provided sources).  A busy character ignores the
intent (test `CharacterUpdateTests.WhenBusy`); an invalid value leaves the
whole movement state unchanged (test `CharacterUpdateTests.Waypoints`). -/
def maybeSetWaypoints (st : GameState) (cid : Nat) (v : JsonVal) : GameState :=
  match findChar st cid with
  | none => st
  | some c =>
      if c.busy ≠ 0 then st
      else
        match parseWaypoints v with
        | none => st
        | some wps => updateChar st cid (setWaypointsChar wps)

/-- Context parameters for move processing: the map's region assignment,
the staleness predicate for prospection results (its exact threshold is
configuration the spec leaves open) and the prospection duration. -/
structure Ctx where
  regionOf : HexCoord → Nat
  isStale : RegionProspection → Nat → Bool
  prospectDuration : Nat

/-- Modelled from the spec: the success branch of the `prospect`
sub-intent (spec section 4.7 (5)): clear the movement, set the character
busy on a fresh Prospection op, and set the region's
`prospecting_character`. -/
def startProspecting (ctx : Ctx) (st : GameState) (cid rid : Nat) (r : Region) :
    GameState :=
  let opId := st.nextId
  let st1 := updateChar st cid (fun x =>
    { x with movement := none, busy := ctx.prospectDuration, ongoing := some opId })
  let st2 := { st1 with ongoings := st1.ongoings ++ [⟨opId, cid, rid⟩],
                        nextId := st1.nextId + 1 }
  setRegion st2 rid { r with prospectingCharacter := cid }

/-- Modelled from the spec: the `prospect` sub-intent handler of the move
processor (not among the provided sources), from spec section 4.7 (5):
the value must be the empty object; the character must not be busy, must
stand in a region whose prospection is absent or stale, and no other
character may currently be prospecting that region; otherwise nothing
changes. -/
def maybeStartProspecting (ctx : Ctx) (h : Nat) (st : GameState) (cid : Nat)
    (v : JsonVal) : GameState :=
  match v with
  | .obj [] =>
      match findChar st cid with
      | none => st
      | some c =>
          if c.busy ≠ 0 then st
          else
            let rid := ctx.regionOf c.pos
            let r := getRegion st rid
            if r.prospectingCharacter ≠ 0 then st
            else
              match r.prospection with
              | some p =>
                  if ctx.isStale p h then
                    startProspecting ctx st cid rid r
                  else st
              | none => startProspecting ctx st cid rid r
  | _ => st

/-- Modelled from the spec: the `send` sub-intent (ownership transfer);
the value must be a string, anything else has no effect (test
`CharacterUpdateTests.InvalidTransfer`). -/
def maybeTransfer (st : GameState) (cid : Nat) : Option JsonVal → GameState
  | some (.str newOwner) => updateChar st cid (fun c => { c with owner := newOwner })
  | _ => st

/-- The `wp` stage over an optional field value. -/
def maybeWpStage (st : GameState) (cid : Nat) : Option JsonVal → GameState
  | some v => maybeSetWaypoints st cid v
  | none => st

/-- The `prospect` stage over an optional field value. -/
def maybeProspectStage (ctx : Ctx) (h : Nat) (st : GameState) (cid : Nat) :
    Option JsonVal → GameState
  | some v => maybeStartProspecting ctx h st cid v
  | none => st

/-- Modelled from the spec: one character-update value applied to an
owned character (the move processor is not among the provided sources).
The value must be an object; the handled sub-intents are `send`, `wp` and
`prospect`, applied in that order (other sub-intents are outside the
verified claims).  A malformed value has no effect. -/
def performCharacterUpdate (ctx : Ctx) (h : Nat) (st : GameState) (cid : Nat)
    (upd : JsonVal) : GameState :=
  match upd with
  | .obj fields =>
      maybeProspectStage ctx h
        (maybeWpStage (maybeTransfer st cid (lookupField fields "send")) cid
          (lookupField fields "wp"))
        cid (lookupField fields "prospect")
  | _ => st

/-- Modelled from the spec: one `c` sub-intent keyed by an id string
(spec section 4.7 (4)): the key must be a canonical decimal id, the
character must exist and be owned by the sender; otherwise the sub-intent
is dropped with no effect. -/
def applyCharUpdateEntry (ctx : Ctx) (h : Nat) (name : String) (st : GameState)
    (e : String × JsonVal) : GameState :=
  match parseIdString e.1 with
  | none => st
  | some cid =>
      match findChar st cid with
      | none => st
      | some c => if c.owner = name then performCharacterUpdate ctx h st cid e.2 else st

/-- Applies all character-update entries of one move in order. -/
def processCharacterUpdates (ctx : Ctx) (h : Nat) (name : String) (st : GameState)
    (entries : List (String × JsonVal)) : GameState :=
  entries.foldl (applyCharUpdateEntry ctx h name) st

/-- Modelled from the spec: processing one player's move object; the `c`
member holds the character updates (other members are outside the
verified claims). -/
def processMove (ctx : Ctx) (h : Nat) (st : GameState) (m : MoveEntry) : GameState :=
  match m.mv with
  | .obj fields =>
      match lookupField fields "c" with
      | some (.obj entries) => processCharacterUpdates ctx h m.name st entries
      | _ => st
  | _ => st

/-- Modelled from the spec: phase (5) of the block pipeline, processing
the block's moves in order. -/
def processMoves (ctx : Ctx) (h : Nat) (st : GameState) (moves : List MoveEntry) :
    GameState :=
  moves.foldl (processMove ctx h) st

/-! ## Combat: damage application primitives -/

/-- Modelled from the spec: applying a damage roll to a victim's HP,
shield first and then armour (spec section 4.4, phase C2); the shield's
milli-HP fraction is untouched by integer damage. -/
def applyDamage (dmg : Nat) (hp : HP) : HP :=
  if hp.shield ≤ dmg then
    { hp with shield := 0,
              armour := if hp.armour ≤ dmg - hp.shield then 0
                        else hp.armour - (dmg - hp.shield) }
  else
    { hp with shield := hp.shield - dmg }

/-- Modelled from the spec: a damage roll drawn uniformly from the
interval `[mn, mx]` using one raw RNG value. -/
def rollDamage (mn mx r : Nat) : Nat :=
  mn + r % (mx + 1 - mn)

/-- One in-range attack applied to the accumulating victim HP, consuming
one RNG draw for the damage roll. -/
def attackStep (p : HP × Rnd) (atk : Attack) : HP × Rnd :=
  let (r, rn) := rndNext p.2
  (applyDamage (rollDamage atk.dmgMin atk.dmgMax r) p.1, rn)

/-- Refreshes (or creates) the damage-list row for the given victim and
attacker, stamping the current height as the last hit. -/
def addDLHit (st : GameState) (vid aid h : Nat) : GameState :=
  { st with damageLists :=
      st.damageLists.filter (fun e => ¬ (e.victim = vid ∧ e.attacker = aid))
        ++ [⟨vid, aid, h⟩] }

/-- Modelled from the spec: one attacker's damage dealing (spec section
4.4, phase C2): all of its attacks whose range reaches the acquired
target are rolled in order and applied shield-first, and a hit refreshes
the victim's damage-list row at the current height. -/
def dealDamageFrom (h : Nat) (acc : GameState × Rnd) (aid : Nat) : GameState × Rnd :=
  match findChar acc.1 aid with
  | none => acc
  | some atkr =>
      match atkr.target with
      | none => acc
      | some vid =>
          match findChar acc.1 vid with
          | none => acc
          | some victim =>
              let dist := hexDist atkr.pos victim.pos
              let hits := atkr.attacks.filter (fun atk => dist ≤ atk.range)
              if hits.isEmpty then acc
              else
                let (hp', rnd') := hits.foldl attackStep (victim.hp, acc.2)
                let st1 := updateChar acc.1 vid (fun c => { c with hp := hp' })
                (addDLHit st1 vid aid h, rnd')

/-- Modelled from the spec: phase (7), damage dealing: fighters with an
acquired target are iterated in table order (ascending id) and deal their
damage; the dead — fighters whose shield and armour both reached zero —
are collected only after the whole phase, so identity resolution stays
stable (spec section 4.4). -/
def dealCombatDamage (h : Nat) (st : GameState) (rnd : Rnd) :
    GameState × Rnd × List Nat :=
  let ids := (st.characters.filter (fun c => c.target.isSome)).map (fun c => c.id)
  let res := ids.foldl (dealDamageFrom h) (st, rnd)
  (res.1, res.2,
   ((res.1.characters.filter (fun c => c.hp.shield = 0 ∧ c.hp.armour = 0)).map
     (fun c => c.id)))

/-! ## Combat: target acquisition -/

/-- The maximum range over a fighter's attacks. -/
def maxAttackRange (c : Character) : Nat :=
  c.attacks.foldl (fun m atk => max m atk.range) 0

/-- Modelled from the spec: target acquisition for one fighter (spec
section 4.4, phase C1): candidates are the opposing-faction fighters
within the maximum attack range; among the strictly closest candidates
one is picked uniformly at random; with no candidate the target is
cleared. -/
def findTargetFor (acc : GameState × Rnd) (aid : Nat) : GameState × Rnd :=
  match findChar acc.1 aid with
  | none => acc
  | some c =>
      let cands := acc.1.characters.filter
        (fun o => o.faction ≠ c.faction ∧ hexDist c.pos o.pos ≤ maxAttackRange c)
      match cands with
      | [] => (updateChar acc.1 aid (fun x => { x with target := none }), acc.2)
      | _ =>
          let dmin := (cands.map (fun o => hexDist c.pos o.pos)).foldl
            Nat.min (maxAttackRange c)
          let closest := cands.filter (fun o => hexDist c.pos o.pos = dmin)
          let (r, rnd') := rndNext acc.2
          match closest.get? (r % closest.length) with
          | some t => (updateChar acc.1 aid (fun x => { x with target := some t.id }), rnd')
          | none => (updateChar acc.1 aid (fun x => { x with target := none }), rnd')

/-- Modelled from the spec: phase (6), target acquisition for every
fighter with attacks, in table order. -/
def findCombatTargets (st : GameState) (rnd : Rnd) : GameState × Rnd :=
  let ids := (st.characters.filter (fun c => ¬ c.attacks.isEmpty)).map (fun c => c.id)
  ids.foldl findTargetFor (st, rnd)

/-! ## Combat: kills, damage-list aging, regeneration -/

/-- Modelled from the spec: kill processing (spec section 4.4, phase C3)
restricted to the entities the claims touch: for every victim, each
attacker on its damage list earns its owner one kill; prospection
attributions pointing at a victim are cancelled, ongoing ops carried by a
victim are dropped, and the victim rows are deleted.  Attacker owners are
resolved against the pre-kill state, as all kills of a block are
processed against a stable table. -/
def processKills (st : GameState) (dead : List Nat) : GameState :=
  let stFame := dead.foldl (fun s vid =>
    let attackers := (s.damageLists.filter (fun e => e.victim = vid)).map
      (fun e => e.attacker)
    attackers.foldl (fun s2 aid =>
      match findChar st aid with
      | some a => { s2 with kills := bumpKills s2.kills a.owner }
      | none => s2) s) st
  { stFame with
    characters := stFame.characters.filter (fun c => ¬ dead.contains c.id),
    ongoings := stFame.ongoings.filter (fun o => ¬ dead.contains o.characterId),
    regions := stFame.regions.map (fun kr =>
      if dead.contains kr.2.prospectingCharacter then
        (kr.1, { kr.2 with prospectingCharacter := 0 })
      else kr) }

/-- Modelled from the spec: damage-list aging — entries whose
`last_hit_height + 100 ≤ current_height` are removed (spec section 4.4;
`damage_list_age = 100`). -/
def ageDamageLists (h : Nat) (st : GameState) : GameState :=
  { st with damageLists := st.damageLists.filter (fun e => h < e.height + 100) }

/-- Modelled from the spec: one regeneration step of a fighter's HP
(spec section 4.4, phase C4): fighters with non-zero shield regeneration
that are not at the maximum add `regeneration_mhp` milli-HP to the
shield accumulator, carrying whole HP and capping at the maximum
(behaviour pinned by test `RegenerateHpTests.Works`). -/
def regenerateHP (maxShield regenMhp : Nat) (hp : HP) : HP :=
  if regenMhp = 0 then hp
  else if maxShield ≤ hp.shield then hp
  else if maxShield ≤ hp.shield + (hp.shieldMhp + regenMhp) / 1000 then
    { hp with shield := maxShield, shieldMhp := 0 }
  else
    { hp with shield := hp.shield + (hp.shieldMhp + regenMhp) / 1000,
              shieldMhp := (hp.shieldMhp + regenMhp) % 1000 }

/-- Modelled from the spec: phase (11), regeneration over all fighters. -/
def regenerateAll (st : GameState) : GameState :=
  { st with characters := st.characters.map (fun c =>
      { c with hp := regenerateHP c.regen.maxHp.shield c.regen.shieldRegenMhp c.hp }) }

/-! ## Movement stepping -/

/-- The neighbour of `pos` closest to `target` in the fixed enumeration
order, used as the straight step of the movement model. -/
def stepToward (pos target : HexCoord) : HexCoord :=
  match pos.neighbours.foldl (fun best n =>
    match best with
    | none => some n
    | some b => if hexDist n target < hexDist b target then some n else best) none with
  | some n => n
  | none => pos

/-- Modelled from the spec: the per-block stepping loop of the movement
subsystem (spec section 4.5): while the partial-step budget covers a step
(1000 per tile on open terrain), step one tile toward the next waypoint;
a reached waypoint is popped; an emptied queue clears the movement.
`fuel` bounds the loop, which the caller sizes generously. -/
def moveStepsAux : Nat → Character → Character
  | 0, c => c
  | fuel + 1, c =>
      match c.movement with
      | none => c
      | some mv =>
          match mv.waypoints with
          | [] => { c with movement := none }
          | w :: ws =>
              if c.pos = w then
                moveStepsAux fuel { c with movement := some ⟨ws, mv.steps⟩ }
              else if c.partStep < 1000 then c
              else
                moveStepsAux fuel
                  { c with pos := stepToward c.pos w, partStep := c.partStep - 1000 }

/-- Modelled from the spec: one block of movement for one character:
moving characters first credit `partial_step += effective_speed`, then
step as long as the budget lasts. -/
def moveCharacter (c : Character) : Character :=
  match c.movement with
  | none => c
  | some mv =>
      let c' := { c with partStep := c.partStep + c.speed }
      moveStepsAux (c'.partStep / 1000 + mv.waypoints.length + 2) c'

/-- Modelled from the spec: phase (8), movement stepping over all
characters. -/
def processMovementPhase (st : GameState) : GameState :=
  { st with characters := st.characters.map moveCharacter }

/-! ## The per-block pipeline -/

/-- Modelled from the spec: the fixed phase order of the block pipeline
(spec section 4.8) restricted to the phases the verified claims touch:
(3) age damage lists, (5) process moves, (6) target acquisition,
(7) damage and kills, (8) movement stepping, (11) regeneration.  The
phases not modelled (ongoing-op completion, building entry, spawning
inside the pipeline, mining, finalisation) are not exercised by any
claim. -/
def processBlock (ctx : Ctx) (st : GameState) (moves : List MoveEntry) (h : Nat)
    (rnd : Rnd) : GameState :=
  let st1 := ageDamageLists h st
  let st2 := processMoves ctx h st1 moves
  let tgt := findCombatTargets st2 rnd
  let dmg := dealCombatDamage h tgt.1 tgt.2
  let st5 := processKills dmg.1 dmg.2.2
  let st6 := processMovementPhase st5
  regenerateAll st6

/-! ## Pathfinder stepper (translated from `hexagonal/pathfinder.cpp`) -/

/-- The distance field a `PathFinder` has computed: a range predicate and
the per-tile distance, with `none` standing for `NO_CONNECTION`. -/
structure DistanceField where
  inRange : HexCoord → Bool
  get : HexCoord → Option Nat

/-- The in-range, connected neighbours of a tile together with their
distances, in enumeration order; this is the candidate set the stepper
loop of `PathFinder::Stepper::Next` scans. -/
def stepCandidates (fd : DistanceField) (pos : HexCoord) : List (HexCoord × Nat) :=
  pos.neighbours.filterMap (fun n =>
    if fd.inRange n then (fd.get n).map (fun d => (n, d)) else none)

/-- The neighbour-scanning loop of `PathFinder::Stepper::Next`: keep the
first neighbour seen whose distance is strictly smaller than the best so
far (`dist < bestDist`), skipping out-of-range and unconnected tiles. -/
def stepperBest (fd : DistanceField) (pos : HexCoord) : Option (HexCoord × Nat) :=
  pos.neighbours.foldl (fun best n =>
    if fd.inRange n then
      match fd.get n with
      | none => best
      | some d =>
          match best with
          | none => some (n, d)
          | some b => if d < b.2 then some (n, d) else best
    else best) none

/-- `PathFinder::Stepper::Next`, translated from
`hexagonal/pathfinder.cpp`: read the current distance, scan the
neighbours for the best one, check `bestDist ≤ curDist`, move there and
return the cost consumed.  The `CHECK` aborts of the source (no more
steps, no current distance, no good neighbour, best above current) are
modelled as `none`. -/
def stepperNext (fd : DistanceField) (pos : HexCoord) : Option (HexCoord × Nat) :=
  match fd.get pos with
  | none => none
  | some cur =>
      if cur = 0 then none
      else
        match stepperBest fd pos with
        | none => none
        | some (n, bd) => if bd ≤ cur then some (n, cur - bd) else none

/-- Iterating `Next` until the distance reaches zero, with fuel. -/
def stepWalk (fd : DistanceField) : Nat → HexCoord → Option HexCoord
  | 0, pos =>
      match fd.get pos with
      | some 0 => some pos
      | _ => none
  | fuel + 1, pos =>
      match fd.get pos with
      | some 0 => some pos
      | some _ =>
          match stepperNext fd pos with
          | some (n, _) => stepWalk fd fuel n
          | none => none
      | none => none

/-- A distance field is proper when every tile at a finite positive
distance has an in-range neighbour at a strictly smaller distance.  The
fields produced by the BFS of `PathFinder::Compute` (uniform edge cost,
distances to the origin) have this property. -/
def ProperField (fd : DistanceField) : Prop :=
  ∀ p d, fd.get p = some d → 0 < d →
    ∃ n ∈ p.neighbours, fd.inRange n = true ∧ ∃ d', fd.get n = some d' ∧ d' < d

/-! ## Dynamic obstacles, base map and spawning
(translated from the spawn source file; its collaborators `DynObstacles`,
`BaseMap`, `L1Ring` and `Params` are not among the provided sources and
are modelled from the spec) -/

/-- Modelled from the spec: the dynamic obstacle map, a per-block view of
which tiles are occupied by which faction's vehicles (spec section 4.3);
only empty tiles are passable, as both same- and opposing-faction
vehicles block (spec section 4.5). -/
structure DynObstacles where
  vehicles : List (HexCoord × Faction)

/-- Whether a vehicle of faction `f` may enter the tile. -/
def DynObstacles.isPassable (d : DynObstacles) (pos : HexCoord) (_f : Faction) : Bool :=
  ¬ d.vehicles.any (fun v => v.1 = pos)

/-- Registers a vehicle of the given faction on the tile. -/
def DynObstacles.addVehicle (d : DynObstacles) (pos : HexCoord) (f : Faction) :
    DynObstacles :=
  ⟨(pos, f) :: d.vehicles⟩

/-- The static base map: which tiles exist and which are passable. -/
structure BaseMap where
  isOnMap : HexCoord → Bool
  isPassable : HexCoord → Bool

/-- Modelled from the spec: `L1Ring(centre, r)` yields every hex at exact
L1 distance `r` (for `r = 0` just the centre); the source's fixed
rotational order is not reproduced as no claim depends on it. -/
def l1Ring (centre : HexCoord) (k : Nat) : List HexCoord :=
  if k = 0 then [centre]
  else
    ((List.range (2 * k + 1)).map (fun i =>
      (List.range (2 * k + 1)).map (fun j =>
        HexCoord.mk (centre.x + (i : Int) - (k : Int)) (centre.y + (j : Int) - (k : Int))))).flatten.filter
      (fun p => hexDist p centre = k)

/-- Modelled from the spec: the per-chain spawn parameters and the
character initialisation data of `Params`. -/
structure SpawnParams where
  spawnCentre : Faction → HexCoord
  spawnRadius : Faction → Nat
  initRegen : RegenData

/-- `RandomSpawnLocation`, translated from the spawn source: pick `x` and
`y` offsets uniformly in `[-radius, radius]` and retry until the point is
within L1 distance; the unbounded retry loop is bounded by fuel. -/
def randomSpawnLocation (centre : HexCoord) (radius : Nat) (rnd : Rnd) :
    Nat → Option (HexCoord × Rnd)
  | 0 => none
  | fuel + 1 =>
      let d1 := rndNext rnd
      let d2 := rndNext d1.2
      let xOffs : Int := (d1.1 % (2 * radius + 1) : Nat) - (radius : Int)
      let yOffs : Int := (d2.1 % (2 * radius + 1) : Nat) - (radius : Int)
      let res : HexCoord := ⟨centre.x + xOffs, centre.y + yOffs⟩
      if hexDist res centre ≤ radius then some (res, d2.2)
      else randomSpawnLocation centre radius d2.2 fuel

/-- The ring-scanning loop of `ChooseSpawnLocation`, translated from the
spawn source: try L1 rings of increasing radius around the ring centre
and return the first tile that is on the map, passable and free of
vehicles; a ring with no tile on the map aborts (`CHECK (foundOnMap)`),
modelled as `none`; fuel bounds the unbounded radius loop. -/
def chooseSpawnFrom (map : BaseMap) (dyn : DynObstacles) (f : Faction)
    (ringCentre : HexCoord) : Nat → Nat → Option HexCoord
  | 0, _ => none
  | fuel + 1, rad =>
      let ring := l1Ring ringCentre rad
      match ring.find? (fun p =>
        map.isOnMap p && map.isPassable p && dyn.isPassable p f) with
      | some p => some p
      | none =>
          if ring.any map.isOnMap then chooseSpawnFrom map dyn f ringCentre fuel (rad + 1)
          else none

/-- `ChooseSpawnLocation`, translated from the spawn source: a random
point in the faction's spawn disk, then expanding L1 rings until a
placeable tile is found. -/
def chooseSpawnLocation (f : Faction) (rnd : Rnd) (map : BaseMap)
    (dyn : DynObstacles) (params : SpawnParams) (fuelLoc fuelRing : Nat) :
    Option (HexCoord × Rnd) :=
  let centre := params.spawnCentre f
  let radius := params.spawnRadius f
  match randomSpawnLocation centre radius rnd fuelLoc with
  | none => none
  | some (ringCentre, rnd') =>
      match chooseSpawnFrom map dyn f ringCentre fuelRing 0 with
      | none => none
      | some p => some (p, rnd')

/-- A freshly created character row, as `CharacterTable::CreateNew`
produces it before the spawn routine fills in position and stats. -/
def newCharacter (cid : Nat) (owner : String) (f : Faction) : Character :=
  { id := cid, owner := owner, faction := f, pos := ⟨0, 0⟩, speed := 0,
    partStep := 0, movement := none, busy := 0, ongoing := none, attacks := [],
    hp := ⟨0, 0, 0⟩, regen := ⟨⟨0, 0, 0⟩, 0⟩, target := none }

/-- `SpawnCharacter`, translated from the spawn source: choose the spawn
location, create the character row, set its position, register the
vehicle on the dynamic obstacle map, initialise its stats from the
parameters and set its HP to the full `max_hp` of the fresh regeneration
data. -/
def spawnCharacter (owner : String) (f : Faction) (st : GameState)
    (dyn : DynObstacles) (rnd : Rnd) (map : BaseMap) (params : SpawnParams)
    (fuelLoc fuelRing : Nat) : Option (Nat × GameState × DynObstacles × Rnd) :=
  match chooseSpawnLocation f rnd map dyn params fuelLoc fuelRing with
  | none => none
  | some (pos, rnd') =>
      let cid := st.nextId
      let c := { newCharacter cid owner f with
                   pos := pos, regen := params.initRegen,
                   hp := params.initRegen.maxHp }
      some (cid,
            { st with characters := st.characters ++ [c], nextId := st.nextId + 1 },
            dyn.addVehicle pos f, rnd')

/-! ## Pending-move projection -/

/-- Modelled from the spec: the per-character part of `PendingState`
relevant to the verified claims — the pending prospecting target (spec
section 4.9 (c)). -/
structure PendingCharState where
  prospectingRegion : Option Nat
deriving DecidableEq, Repr

/-- Modelled from the spec: the pending-move projection, keyed by
character id. -/
def PendingState := List (Nat × PendingCharState)

/-- Looks up the pending state of a character. -/
def lookupPending (ps : PendingState) (cid : Nat) : Option PendingCharState :=
  match ps.find? (fun e => e.1 = cid) with
  | some e => some e.2
  | none => none

/-- Inserts or replaces a character's pending state. -/
def setPending : PendingState → Nat → PendingCharState → PendingState
  | [], cid, pc => [(cid, pc)]
  | (k, v) :: rest, cid, pc =>
      if k = cid then (cid, pc) :: rest else (k, v) :: setPending rest cid pc

/-- Modelled from the spec: `PendingState::AddCharacterProspecting` (the
pending implementation is not among the provided sources): a prospect
intent replaces any prior prospect for the same character only if the
region matches; attempting to prospect a different region is a programmer
error that fails loudly (the source's fatal `CHECK`, modelled as `none`;
test `PendingStateTests.Prospecting`). -/
def addCharacterProspecting (ps : PendingState) (cid rid : Nat) :
    Option PendingState :=
  match lookupPending ps cid with
  | some pc =>
      match pc.prospectingRegion with
      | some r => if r = rid then some ps else none
      | none => some (setPending ps cid { pc with prospectingRegion := some rid })
  | none =>
      some (setPending ps cid { prospectingRegion := some rid })

/-! ## Validity of character-update sub-intents -/

/-- Whether a `c` sub-intent entry is valid in the given state for the
given sender: a canonical id key naming an existing character owned by
the sender, with an object as value (spec sections 4.7 and 7: anything
else is a user-input error, dropped at sub-intent granularity). -/
def validEntry (st : GameState) (name : String) (e : String × JsonVal) : Bool :=
  match parseIdString e.1 with
  | none => false
  | some cid =>
      match findChar st cid with
      | none => false
      | some c => decide (c.owner = name) && isObjVal e.2

/-- Sequentially drops the invalid entries of a character-update list,
judging each entry against the state reached by applying the earlier
valid ones. -/
def seqDropInvalid (ctx : Ctx) (h : Nat) (name : String) :
    GameState → List (String × JsonVal) → List (String × JsonVal)
  | _, [] => []
  | st, e :: es =>
      if validEntry st name e then
        e :: seqDropInvalid ctx h name (applyCharUpdateEntry ctx h name st e) es
      else seqDropInvalid ctx h name st es

/-! ## First-minimum selection (pathfinder tie-break) -/

/-- One step of the stepper's neighbour scan: keep the incumbent unless
the new candidate is strictly closer (`dist < bestDist` in the source). -/
def keepMinStep (best : Option (HexCoord × Nat)) (x : HexCoord × Nat) :
    Option (HexCoord × Nat) :=
  match best with
  | none => some x
  | some y => if x.2 < y.2 then some x else best

/-- The first pair of minimal second component in a list: the reference
characterisation of the pathfinder stepper's neighbour scan. -/
def firstMinPair : List (HexCoord × Nat) → Option (HexCoord × Nat)
  | [] => none
  | x :: xs =>
      match firstMinPair xs with
      | none => some x
      | some y => if y.2 < x.2 then some y else some x

/-- A concrete three-tile distance field along a line, used to witness
the pathfinder stepper theorems on an explicit input. -/
def lineField : DistanceField :=
  { inRange := fun _ => true,
    get := fun p =>
      if p = ⟨0, 0⟩ then some 0
      else if p = ⟨1, 0⟩ then some 1
      else if p = ⟨2, 0⟩ then some 2
      else none }

/-! ## Helper lemmas -/

/-- A fold of a state-preserving step preserves the projection. -/
theorem foldl_preserves {α β : Type} (proj : β → List DLEntry) (f : β → α → β)
    (hf : ∀ s a, proj (f s a) = proj s) :
    ∀ (l : List α) (s : β), proj (l.foldl f s) = proj s := by
  intro l
  induction l with
  | nil => intro s; rfl
  | cons a t ih => intro s; rw [List.foldl_cons, ih, hf]

theorem lookupPending_setPending (ps : PendingState) (cid : Nat)
    (pc : PendingCharState) : lookupPending (setPending ps cid pc) cid = some pc := by
  induction ps with
  | nil => simp [setPending, lookupPending, List.find?]
  | cons e rest ih =>
      by_cases h : e.1 = cid
      · simp [setPending, h, lookupPending, List.find?]
      · cases e with
        | mk k v =>
            simp only at h
            simp only [setPending, if_neg h]
            simpa [lookupPending, List.find?, h] using ih

theorem lookupKills_bumpKills_self (m : List (String × Nat)) (k : String) :
    lookupKills (bumpKills m k) k = lookupKills m k + 1 := by
  induction m with
  | nil => simp [bumpKills, lookupKills]
  | cons e rest ih =>
      cases e with
      | mk ek ev =>
          by_cases h : ek = k
          · subst h
            simp [bumpKills, lookupKills]
          · simp [bumpKills, lookupKills, h, ih]

theorem lookupKills_bumpKills_other (m : List (String × Nat)) (k k' : String)
    (hne : k ≠ k') : lookupKills (bumpKills m k') k = lookupKills m k := by
  induction m with
  | nil =>
      simp only [bumpKills, lookupKills]
      rw [if_neg (fun h => hne h.symm)]
  | cons e rest ih =>
      cases e with
      | mk ek ev =>
          by_cases h : ek = k'
          · subst h
            simp only [bumpKills, if_pos rfl, lookupKills]
            rw [if_neg (fun h2 => hne h2.symm), if_neg (fun h2 => hne h2.symm)]
          · simp [bumpKills, lookupKills, h, ih]

/-! ## Claim theorems -/

/-- C7: one regeneration step adds `regeneration_mhp` to the shield's
milli-HP accumulator, carrying each full 1000 milli-HP into one shield
point and capping at the maximum (fraction zeroed at the cap); fighters
at full shield or with zero regeneration are unchanged; all arithmetic is
exact integer arithmetic in thousandths.  Writing `t` for the total
shield milli-HP after the step, the uncapped result satisfies
`shield * 1000 + mhp = t` exactly. -/
theorem C7_shield_regeneration (maxShield regenMhp : Nat) (hp : HP) :
    (regenMhp ≠ 0 → hp.shield < maxShield →
      ((hp.shield * 1000 + hp.shieldMhp + regenMhp < maxShield * 1000 →
          (regenerateHP maxShield regenMhp hp).shield * 1000
              + (regenerateHP maxShield regenMhp hp).shieldMhp
            = hp.shield * 1000 + hp.shieldMhp + regenMhp
          ∧ (regenerateHP maxShield regenMhp hp).shieldMhp < 1000)
        ∧ (maxShield * 1000 ≤ hp.shield * 1000 + hp.shieldMhp + regenMhp →
            (regenerateHP maxShield regenMhp hp).shield = maxShield
            ∧ (regenerateHP maxShield regenMhp hp).shieldMhp = 0)
        ∧ (regenerateHP maxShield regenMhp hp).shield ≤ maxShield
        ∧ (regenerateHP maxShield regenMhp hp).armour = hp.armour))
    ∧ (regenMhp = 0 ∨ maxShield ≤ hp.shield → regenerateHP maxShield regenMhp hp = hp) := by
  constructor
  · intro hreg hlt
    have hmod := Nat.mod_lt (hp.shieldMhp + regenMhp) (show 0 < 1000 by norm_num)
    have hdm := Nat.div_add_mod (hp.shieldMhp + regenMhp) 1000
    unfold regenerateHP
    rw [if_neg hreg, if_neg (by omega)]
    refine ⟨fun hun => ?_, fun hcap => ?_, ?_, ?_⟩
    · rw [if_neg (by omega)]
      exact ⟨by simp only; omega, by simpa using hmod⟩
    · rw [if_pos (by omega)]
      exact ⟨rfl, rfl⟩
    · split
      · exact Nat.le_refl _
      · simp only
        omega
    · split <;> rfl
  · intro hstop
    unfold regenerateHP
    rcases hstop with hz | hs
    · rw [if_pos hz]
    · by_cases hz : regenMhp = 0
      · rw [if_pos hz]
      · rw [if_neg hz, if_pos hs]

/-- C7 witness: the regeneration step at the concrete values of test
`RegenerateHpTests.Works` (regen 750 milli-HP onto shield 50 with 750
milli-HP stored, maximum 100). -/
theorem C7_shield_regeneration_witness :
    ((750 : Nat) ≠ 0 ∧ (50 : Nat) < 100)
    ∧ ((regenerateHP 100 750 ⟨7, 50, 750⟩).shield * 1000
          + (regenerateHP 100 750 ⟨7, 50, 750⟩).shieldMhp = 50 * 1000 + 750 + 750
        ∧ (regenerateHP 100 750 ⟨7, 50, 750⟩).shieldMhp < 1000)
    ∧ regenerateHP 100 0 ⟨7, 50, 750⟩ = ⟨7, 50, 750⟩ := by
  refine ⟨by omega, ?_, ?_⟩
  · exact ((C7_shield_regeneration 100 750 ⟨7, 50, 750⟩).1 (by decide) (by decide)).1
      (by decide)
  · exact (C7_shield_regeneration 100 0 ⟨7, 50, 750⟩).2 (Or.inl rfl)

/-- C6: a damage roll is uniform in `[min, max]` — it always lies in the
interval, and the raw draws below the interval width map bijectively onto
the interval — and applying a roll `d` reduces the shield to
`max 0 (shield - d)`, reduces the armour by the excess `d - shield` only
when `d` exceeds the shield and never below zero, and leaves the shield's
milli-HP fraction untouched. -/
theorem C6_damage_roll_and_application (mn mx r : Nat) (hp : HP) (hle : mn ≤ mx) :
    (mn ≤ rollDamage mn mx r ∧ rollDamage mn mx r ≤ mx)
    ∧ (∀ v, mn ≤ v → v ≤ mx →
        ∃ r', r' < mx + 1 - mn ∧ rollDamage mn mx r' = v)
    ∧ (∀ r1 r2, r1 < mx + 1 - mn → r2 < mx + 1 - mn →
        rollDamage mn mx r1 = rollDamage mn mx r2 → r1 = r2)
    ∧ (∀ d, ((applyDamage d hp).shield : Int) = max 0 ((hp.shield : Int) - d)
        ∧ ((applyDamage d hp).armour : Int)
            = max 0 ((hp.armour : Int) - max 0 ((d : Int) - hp.shield))
        ∧ (applyDamage d hp).shieldMhp = hp.shieldMhp) := by
  have hw : 0 < mx + 1 - mn := by omega
  refine ⟨⟨Nat.le_add_right _ _, ?_⟩, ?_, ?_, ?_⟩
  · have := Nat.mod_lt r hw
    unfold rollDamage
    omega
  · intro v hv1 hv2
    refine ⟨v - mn, by omega, ?_⟩
    unfold rollDamage
    rw [Nat.mod_eq_of_lt (by omega)]
    omega
  · intro r1 r2 h1 h2 he
    unfold rollDamage at he
    rw [Nat.mod_eq_of_lt h1, Nat.mod_eq_of_lt h2] at he
    omega
  · intro d
    unfold applyDamage
    by_cases h1 : hp.shield ≤ d
    · rw [if_pos h1]
      by_cases h2 : hp.armour ≤ d - hp.shield
      · rw [if_pos h2]
        refine ⟨?_, ?_, rfl⟩ <;> simp only <;> omega
      · rw [if_neg h2]
        refine ⟨?_, ?_, rfl⟩ <;> simp only <;> omega
    · rw [if_neg h1]
      refine ⟨?_, ?_, rfl⟩ <;> simp only <;> omega

/-- C6 witness: a roll and an application at concrete values (interval
`[1, 10]`, raw draw 4, victim at shield 3, armour 8, fraction 999). -/
theorem C6_damage_roll_and_application_witness :
    (1 : Nat) ≤ 10
    ∧ ((1 : Nat) ≤ rollDamage 1 10 4 ∧ rollDamage 1 10 4 ≤ 10)
    ∧ ((applyDamage 5 ⟨8, 3, 999⟩).shield : Int) = max 0 ((3 : Int) - 5)
    ∧ (applyDamage 5 ⟨8, 3, 999⟩).shieldMhp = 999 := by
  refine ⟨by omega, (C6_damage_roll_and_application 1 10 4 ⟨8, 3, 999⟩ (by omega)).1,
    ((C6_damage_roll_and_application 1 10 4 ⟨8, 3, 999⟩ (by omega)).2.2.2 5).1, ?_⟩
  exact ((C6_damage_roll_and_application 1 10 4 ⟨8, 3, 999⟩ (by omega)).2.2.2 5).2.2

/-- C9: in the pending-move projection, adding a prospect intent for a
character that already has a pending prospect of the same region leaves
the pending state unchanged (and a successful add is idempotent), while
adding a prospect intent for a different region than the pending one hits
the fatal check (modelled as `none`) rather than being silently
ignored. -/
theorem C9_pending_prospect_idempotent_or_fatal (ps ps' : PendingState)
    (cid rid : Nat) :
    (addCharacterProspecting ps cid rid = some ps' →
      addCharacterProspecting ps' cid rid = some ps')
    ∧ (∀ pc, lookupPending ps cid = some pc → pc.prospectingRegion = some rid →
        addCharacterProspecting ps cid rid = some ps)
    ∧ (∀ pc r, lookupPending ps cid = some pc → pc.prospectingRegion = some r →
        r ≠ rid → addCharacterProspecting ps cid rid = none) := by
  refine ⟨?_, ?_, ?_⟩
  · intro hadd
    unfold addCharacterProspecting at hadd ⊢
    cases hlk : lookupPending ps cid with
    | some pc =>
        simp only [hlk] at hadd
        cases hpr : pc.prospectingRegion with
        | some r =>
            simp only [hpr] at hadd
            by_cases hr : r = rid
            · rw [if_pos hr] at hadd
              cases hadd
              simp only [hlk, hpr, if_pos hr]
            · rw [if_neg hr] at hadd
              cases hadd
        | none =>
            simp only [hpr] at hadd
            cases hadd
            simp [lookupPending_setPending]
    | none =>
        simp only [hlk] at hadd
        cases hadd
        simp [lookupPending_setPending]
  · intro pc hlk hpr
    unfold addCharacterProspecting
    simp [hlk, hpr]
  · intro pc r hlk hpr hne
    unfold addCharacterProspecting
    simp [hlk, hpr, hne]

/-- C9 witness: a pending prospect of region 12345 for character 1 is
idempotent to re-add and fatal to redirect to region 999, as in test
`PendingStateTests.Prospecting`. -/
theorem C9_pending_prospect_witness :
    addCharacterProspecting [(1, ⟨some 12345⟩)] 1 12345 = some [(1, ⟨some 12345⟩)]
    ∧ addCharacterProspecting [(1, ⟨some 12345⟩)] 1 999 = none := by
  constructor
  · exact (C9_pending_prospect_idempotent_or_fatal [(1, ⟨some 12345⟩)]
      [(1, ⟨some 12345⟩)] 1 12345).2.1 ⟨some 12345⟩ (by rfl) rfl
  · exact (C9_pending_prospect_idempotent_or_fatal [(1, ⟨some 12345⟩)]
      [(1, ⟨some 12345⟩)] 1 999).2.2 ⟨some 12345⟩ 12345 (by rfl) rfl (by omega)

/-! ## Damage lists through the pipeline phases -/

theorem dl_maybeSetWaypoints (st : GameState) (cid : Nat) (v : JsonVal) :
    (maybeSetWaypoints st cid v).damageLists = st.damageLists := by
  unfold maybeSetWaypoints
  repeat' split
  all_goals rfl

theorem dl_maybeStartProspecting (ctx : Ctx) (h : Nat) (st : GameState) (cid : Nat)
    (v : JsonVal) :
    (maybeStartProspecting ctx h st cid v).damageLists = st.damageLists := by
  unfold maybeStartProspecting
  dsimp only
  repeat' split
  all_goals rfl

theorem dl_performCharacterUpdate (ctx : Ctx) (h : Nat) (st : GameState) (cid : Nat)
    (upd : JsonVal) :
    (performCharacterUpdate ctx h st cid upd).damageLists = st.damageLists := by
  unfold performCharacterUpdate
  split
  · rw [show ∀ st' : GameState, (maybeProspectStage ctx h st' cid _).damageLists
        = st'.damageLists from ?_,
      show ∀ st' : GameState, (maybeWpStage st' cid _).damageLists
        = st'.damageLists from ?_]
    · unfold maybeTransfer
      repeat' split
      all_goals rfl
    · intro st'
      unfold maybeWpStage
      split
      · exact dl_maybeSetWaypoints _ _ _
      · rfl
    · intro st'
      unfold maybeProspectStage
      split
      · exact dl_maybeStartProspecting _ _ _ _ _
      · rfl
  · rfl

theorem dl_applyCharUpdateEntry (ctx : Ctx) (h : Nat) (name : String)
    (st : GameState) (e : String × JsonVal) :
    (applyCharUpdateEntry ctx h name st e).damageLists = st.damageLists := by
  unfold applyCharUpdateEntry
  repeat' split
  all_goals first
    | rfl
    | exact dl_performCharacterUpdate _ _ _ _ _

theorem dl_processMoves (ctx : Ctx) (h : Nat) (st : GameState)
    (moves : List MoveEntry) :
    (processMoves ctx h st moves).damageLists = st.damageLists := by
  unfold processMoves
  refine foldl_preserves GameState.damageLists _ (fun s m => ?_) moves st
  unfold processMove
  repeat' split
  all_goals first
    | rfl
    | exact foldl_preserves GameState.damageLists _
        (fun s' e => dl_applyCharUpdateEntry ctx h _ s' e) _ s

theorem dl_findTargetFor (acc : GameState × Rnd) (aid : Nat) :
    (findTargetFor acc aid).1.damageLists = acc.1.damageLists := by
  unfold findTargetFor
  dsimp only
  repeat' split
  all_goals rfl

theorem dl_findCombatTargets (st : GameState) (rnd : Rnd) :
    (findCombatTargets st rnd).1.damageLists = st.damageLists := by
  unfold findCombatTargets
  exact foldl_preserves (fun acc => acc.1.damageLists) _
    (fun s a => dl_findTargetFor s a) _ (st, rnd)

theorem dealDamageFrom_dl (h : Nat) (acc : GameState × Rnd) (aid : Nat) :
    ∀ e ∈ (dealDamageFrom h acc aid).1.damageLists,
      e ∈ acc.1.damageLists ∨ e.height = h := by
  intro e
  unfold dealDamageFrom
  cases hfa : findChar acc.1 aid with
  | none => exact fun he => Or.inl he
  | some atkr =>
      dsimp only
      cases htg : atkr.target with
      | none => exact fun he => Or.inl he
      | some vid =>
          dsimp only
          cases hfv : findChar acc.1 vid with
          | none => exact fun he => Or.inl he
          | some victim =>
              dsimp only
              split
              · exact fun he => Or.inl he
              · intro he
                simp only [addDLHit] at he
                rcases List.mem_append.mp he with hl | hr
                · exact Or.inl (List.mem_of_mem_filter hl)
                · rcases List.mem_singleton.mp hr with rfl
                  exact Or.inr rfl

theorem dealDamage_fold_dl (h : Nat) :
    ∀ (ids : List Nat) (acc : GameState × Rnd),
      ∀ e ∈ ((ids.foldl (dealDamageFrom h) acc).1).damageLists,
        e ∈ acc.1.damageLists ∨ e.height = h := by
  intro ids
  induction ids with
  | nil => intro acc e he; exact Or.inl he
  | cons a t ih =>
      intro acc e he
      rw [List.foldl_cons] at he
      rcases ih (dealDamageFrom h acc a) e he with hm | hh
      · exact dealDamageFrom_dl h acc a e hm
      · exact Or.inr hh

theorem dl_processKills (st : GameState) (dead : List Nat) :
    (processKills st dead).damageLists = st.damageLists := by
  unfold processKills
  refine foldl_preserves GameState.damageLists _ (fun s vid => ?_) dead st
  refine foldl_preserves GameState.damageLists _ (fun s2 aid => ?_) _ s
  split <;> rfl

theorem dealDamageFrom_id (h : Nat) (acc : GameState × Rnd) (aid : Nat)
    (hatt : ∀ c ∈ acc.1.characters, c.attacks = []) :
    dealDamageFrom h acc aid = acc := by
  unfold dealDamageFrom
  cases hfa : findChar acc.1 aid with
  | none => rfl
  | some atkr =>
      have hmem : atkr ∈ acc.1.characters := List.mem_of_find?_eq_some hfa
      have hno : atkr.attacks = [] := hatt atkr hmem
      dsimp only
      cases htg : atkr.target with
      | none => rfl
      | some vid =>
          dsimp only
          cases hfv : findChar acc.1 vid with
          | none => rfl
          | some victim =>
              dsimp only
              rw [hno]
              simp

theorem dealDamage_fold_id (h : Nat) :
    ∀ (ids : List Nat) (acc : GameState × Rnd),
      (∀ c ∈ acc.1.characters, c.attacks = []) →
      ids.foldl (dealDamageFrom h) acc = acc := by
  intro ids
  induction ids with
  | nil => intro acc _; rfl
  | cons a t ih =>
      intro acc hatt
      rw [List.foldl_cons, dealDamageFrom_id h acc a hatt, ih acc hatt]

/-- C5: after processing any block at height `h` the damage-list table
contains no entry with `last_hit_height + 100 ≤ h`; an unrefreshed entry
whose last hit was at height `H` survives a block at any height below
`H + 100` and is gone after a block at any height from `H + 100` on. -/
theorem C5_damage_list_aging (ctx : Ctx) (st : GameState) (moves : List MoveEntry)
    (h H : Nat) (rnd : Rnd) (e : DLEntry) (he : e ∈ st.damageLists)
    (hH : e.height = H) :
    (∀ e' ∈ (processBlock ctx st moves h rnd).damageLists, h < e'.height + 100)
    ∧ (H + 100 ≤ h → e ∉ (processBlock ctx st moves h rnd).damageLists)
    ∧ (h < H + 100 → (∀ c ∈ st.characters, c.attacks = []) →
        e ∈ (processBlock ctx st [] h rnd).damageLists) := by
  have hpartA : ∀ mvs, ∀ e' ∈ (processBlock ctx st mvs h rnd).damageLists,
      h < e'.height + 100 := by
    intro mvs e' he'
    unfold processBlock at he'
    rw [show ∀ s : GameState, (regenerateAll s).damageLists = s.damageLists
          from fun _ => rfl,
        show ∀ s : GameState, (processMovementPhase s).damageLists = s.damageLists
          from fun _ => rfl,
        dl_processKills] at he'
    unfold dealCombatDamage at he'
    rcases dealDamage_fold_dl h _ _ e' he' with hm | hh
    · rw [dl_findCombatTargets, dl_processMoves] at hm
      simp only [ageDamageLists, List.mem_filter] at hm
      simpa using hm.2
    · omega
  refine ⟨hpartA moves, ?_, ?_⟩
  · intro hold hmem
    have := hpartA moves e hmem
    omega
  · intro hyoung hatt
    unfold processBlock
    rw [show ∀ s : GameState, (regenerateAll s).damageLists = s.damageLists
          from fun _ => rfl,
        show ∀ s : GameState, (processMovementPhase s).damageLists = s.damageLists
          from fun _ => rfl,
        dl_processKills]
    unfold dealCombatDamage
    have hage : ∀ c ∈ (processMoves ctx h (ageDamageLists h st) []).characters,
        c.attacks = [] := by
      intro c hc
      exact hatt c hc
    have htg : findCombatTargets (processMoves ctx h (ageDamageLists h st) []) rnd
        = (processMoves ctx h (ageDamageLists h st) [], rnd) := by
      unfold findCombatTargets
      rw [show (processMoves ctx h (ageDamageLists h st) []).characters.filter
            (fun c => ¬ c.attacks.isEmpty) = [] from ?_]
      · rfl
      · rw [List.filter_eq_nil_iff]
        intro c hc
        simp [hage c hc]
    rw [htg]
    dsimp only
    rw [dealDamage_fold_id h _ _ (by intro c hc; exact hage c hc)]
    simp only [processMoves, List.foldl_nil, ageDamageLists, List.mem_filter]
    exact ⟨he, by simp; omega⟩

/-- C5 witness: a concrete damage-list entry last hit at height 100 is
still present after a block at height 199 and absent after a block at
height 200, as in test `PXLogicTests.DamageLists`. -/
theorem C5_damage_list_aging_witness :
    (⟨2, 1, 100⟩ : DLEntry) ∈
      (⟨[], [], [], [⟨2, 1, 100⟩], [], 3⟩ : GameState).damageLists
    ∧ (⟨2, 1, 100⟩ : DLEntry) ∈
        (processBlock ⟨fun _ => 0, fun _ _ => false, 10⟩
          ⟨[], [], [], [⟨2, 1, 100⟩], [], 3⟩ [] 199 ⟨fun _ => 0, 0⟩).damageLists
    ∧ (⟨2, 1, 100⟩ : DLEntry) ∉
        (processBlock ⟨fun _ => 0, fun _ _ => false, 10⟩
          ⟨[], [], [], [⟨2, 1, 100⟩], [], 3⟩ [] 200 ⟨fun _ => 0, 0⟩).damageLists := by
  refine ⟨by simp, ?_, ?_⟩
  · exact (C5_damage_list_aging ⟨fun _ => 0, fun _ _ => false, 10⟩
      ⟨[], [], [], [⟨2, 1, 100⟩], [], 3⟩ [] 199 100 ⟨fun _ => 0, 0⟩ ⟨2, 1, 100⟩
      (by simp) rfl).2.2 (by omega) (by simp)
  · exact (C5_damage_list_aging ⟨fun _ => 0, fun _ _ => false, 10⟩
      ⟨[], [], [], [⟨2, 1, 100⟩], [], 3⟩ [] 200 100 ⟨fun _ => 0, 0⟩ ⟨2, 1, 100⟩
      (by simp) rfl).2.1 (by omega)

/-! ## C4: invalid sub-intents are dropped -/

theorem invalidEntry_noop (ctx : Ctx) (h : Nat) (name : String) (st : GameState)
    (e : String × JsonVal) (hv : validEntry st name e = false) :
    applyCharUpdateEntry ctx h name st e = st := by
  unfold validEntry at hv
  unfold applyCharUpdateEntry
  cases hp : parseIdString e.1 with
  | none => rfl
  | some cid =>
      rw [hp] at hv
      dsimp only at hv
      dsimp only
      cases hf : findChar st cid with
      | none => rfl
      | some c =>
          rw [hf] at hv
          dsimp only at hv ⊢
          by_cases how : c.owner = name
          · rw [if_pos how]
            simp only [how, decide_True, Bool.true_and] at hv
            cases e2 : e.2 <;> simp [e2, isObjVal] at hv ⊢ <;>
              simp [performCharacterUpdate]
          · rw [if_neg how]

/-- C4: an invalid `c` sub-intent — malformed id key, non-existing
character, wrong owner, or malformed value — has no effect on the state,
and processing a list of sub-intents gives exactly the state obtained by
processing the list with the invalid entries removed; processing is a
total function, so a batch never aborts on user-input errors. -/
theorem C4_invalid_subintents_dropped (ctx : Ctx) (h : Nat) (name : String)
    (st : GameState) (entries : List (String × JsonVal)) :
    (∀ e, validEntry st name e = false → applyCharUpdateEntry ctx h name st e = st)
    ∧ processCharacterUpdates ctx h name st entries
        = processCharacterUpdates ctx h name st (seqDropInvalid ctx h name st entries) := by
  refine ⟨fun e hv => invalidEntry_noop ctx h name st e hv, ?_⟩
  induction entries generalizing st with
  | nil => rfl
  | cons e es ih =>
      unfold processCharacterUpdates at ih ⊢
      unfold seqDropInvalid
      by_cases hv : validEntry st name e
      · rw [if_pos hv, List.foldl_cons, List.foldl_cons]
        exact ih (applyCharUpdateEntry ctx h name st e)
      · rw [if_neg hv, List.foldl_cons,
          invalidEntry_noop ctx h name st e (by simpa using hv)]
        exact ih st

/-- C4 witness: with character 1 owned by "domob", the whitespace id
key, a non-existing id, a wrong-owner update and a non-object value are
all dropped, and a mixed list processes exactly as its valid part. -/
theorem C4_invalid_subintents_dropped_witness :
    validEntry ⟨[newCharacter 1 "domob" .red], [], [], [], [], 2⟩ "domob"
      (" 1", .obj []) = false
    ∧ applyCharUpdateEntry ⟨fun _ => 0, fun _ _ => false, 10⟩ 0 "domob"
        ⟨[newCharacter 1 "domob" .red], [], [], [], [], 2⟩ (" 1", .obj [])
      = ⟨[newCharacter 1 "domob" .red], [], [], [], [], 2⟩
    ∧ processCharacterUpdates ⟨fun _ => 0, fun _ _ => false, 10⟩ 0 "domob"
        ⟨[newCharacter 1 "domob" .red], [], [], [], [], 2⟩
        [(" 1", .obj []), ("1", .obj [("send", .str "andy")]), ("5", .obj [])]
      = processCharacterUpdates ⟨fun _ => 0, fun _ _ => false, 10⟩ 0 "domob"
          ⟨[newCharacter 1 "domob" .red], [], [], [], [], 2⟩
          (seqDropInvalid ⟨fun _ => 0, fun _ _ => false, 10⟩ 0 "domob"
            ⟨[newCharacter 1 "domob" .red], [], [], [], [], 2⟩
            [(" 1", .obj []), ("1", .obj [("send", .str "andy")]), ("5", .obj [])]) := by
  refine ⟨by rfl, ?_, ?_⟩
  · exact (C4_invalid_subintents_dropped ⟨fun _ => 0, fun _ _ => false, 10⟩ 0 "domob"
      ⟨[newCharacter 1 "domob" .red], [], [], [], [], 2⟩ []).1 (" 1", .obj []) (by rfl)
  · exact (C4_invalid_subintents_dropped ⟨fun _ => 0, fun _ _ => false, 10⟩ 0 "domob"
      ⟨[newCharacter 1 "domob" .red], [], [], [], [], 2⟩
      [(" 1", .obj []), ("1", .obj [("send", .str "andy")]), ("5", .obj [])]).2

/-! ## Lookup lemmas for updates -/

theorem find?_map_update (l : List Character) (cid : Nat) (f : Character → Character)
    (hid : ∀ x, (f x).id = x.id) :
    (l.map (fun c => if c.id = cid then f c else c)).find? (fun c => c.id = cid)
      = (l.find? (fun c => c.id = cid)).map f := by
  induction l with
  | nil => rfl
  | cons a t ih =>
      by_cases ha : a.id = cid
      · simp [List.find?, ha, hid a]
      · simp [List.find?, ha, ih]

theorem findChar_updateChar (st : GameState) (cid : Nat) (f : Character → Character)
    (hid : ∀ x, (f x).id = x.id) :
    findChar (updateChar st cid f) cid = (findChar st cid).map f := by
  unfold findChar updateChar
  exact find?_map_update st.characters cid f hid

theorem find?_upsertRegion (l : List (Nat × Region)) (rid : Nat) (r : Region) :
    (upsertRegion l rid r).find? (fun e => e.1 = rid) = some (rid, r) := by
  induction l with
  | nil => simp [upsertRegion, List.find?]
  | cons a t ih =>
      by_cases ha : a.1 = rid
      · simp [upsertRegion, ha, List.find?]
      · cases a with
        | mk k v =>
            simp only at ha
            simp [upsertRegion, ha, List.find?, ih]

theorem getRegion_setRegion (st : GameState) (rid : Nat) (r : Region) :
    getRegion (setRegion st rid r) rid = r := by
  unfold getRegion setRegion
  rw [find?_upsertRegion]

/-- C3: with the `prospect` value well-formed (the empty object), the
sub-intent succeeds if and only if the character is not busy, its region
has no non-stale prospection result and no other character is currently
prospecting the region (which also covers a claim by an earlier move of
the same block); on success the movement is cleared, the character
becomes busy carrying a fresh Prospection op and the region records it as
prospecting character; on any failed precondition the state — character,
region and movement queue included — is completely unchanged. -/
theorem C3_prospect_preconditions (ctx : Ctx) (h : Nat) (st : GameState)
    (cid : Nat) (c : Character) (rid : Nat) (r : Region)
    (hfind : findChar st cid = some c)
    (hrid : rid = ctx.regionOf c.pos) (hr : r = getRegion st rid) :
    ((c.busy = 0 ∧ r.prospectingCharacter = 0
        ∧ (∀ p, r.prospection = some p → ctx.isStale p h = true)) →
      maybeStartProspecting ctx h st cid (.obj [])
          = startProspecting ctx st cid rid r
      ∧ findChar (maybeStartProspecting ctx h st cid (.obj [])) cid
          = some { c with movement := none, busy := ctx.prospectDuration,
                          ongoing := some st.nextId }
      ∧ (⟨st.nextId, cid, rid⟩ : OngoingOp)
          ∈ (maybeStartProspecting ctx h st cid (.obj [])).ongoings
      ∧ getRegion (maybeStartProspecting ctx h st cid (.obj [])) rid
          = { r with prospectingCharacter := cid })
    ∧ (¬ (c.busy = 0 ∧ r.prospectingCharacter = 0
        ∧ (∀ p, r.prospection = some p → ctx.isStale p h = true)) →
      maybeStartProspecting ctx h st cid (.obj []) = st) := by
  subst hrid hr
  have hred : ∀ hsucc : maybeStartProspecting ctx h st cid (.obj [])
        = startProspecting ctx st cid (ctx.regionOf c.pos)
            (getRegion st (ctx.regionOf c.pos)),
      findChar (maybeStartProspecting ctx h st cid (.obj [])) cid
          = some { c with movement := none, busy := ctx.prospectDuration,
                          ongoing := some st.nextId }
      ∧ (⟨st.nextId, cid, ctx.regionOf c.pos⟩ : OngoingOp)
          ∈ (maybeStartProspecting ctx h st cid (.obj [])).ongoings
      ∧ getRegion (maybeStartProspecting ctx h st cid (.obj []))
            (ctx.regionOf c.pos)
          = { getRegion st (ctx.regionOf c.pos) with prospectingCharacter := cid } := by
    intro hsucc
    rw [hsucc]
    refine ⟨?_, ?_, ?_⟩
    · show findChar (setRegion _ _ _) cid = _
      rw [show ∀ st' rid' r', findChar (setRegion st' rid' r') cid = findChar st' cid
            from fun _ _ _ => rfl]
      rw [show ∀ st' : GameState, findChar { st' with
            ongoings := st'.ongoings ++ [⟨st.nextId, cid, ctx.regionOf c.pos⟩],
            nextId := st'.nextId + 1 } cid = findChar st' cid from fun _ => rfl]
      rw [findChar_updateChar st cid
          (fun x => { x with movement := none, busy := ctx.prospectDuration,
                             ongoing := some st.nextId }) (fun x => rfl), hfind]
      rfl
    · show _ ∈ (setRegion _ _ _).ongoings
      simp [startProspecting, setRegion, updateChar]
    · exact getRegion_setRegion _ _ _
  constructor
  · intro hpre
    obtain ⟨hb, hpc, hstale⟩ := hpre
    have hsucc : maybeStartProspecting ctx h st cid (.obj [])
        = startProspecting ctx st cid (ctx.regionOf c.pos)
            (getRegion st (ctx.regionOf c.pos)) := by
      unfold maybeStartProspecting
      dsimp only
      rw [hfind]
      dsimp only
      rw [if_neg (by omega)]
      rw [if_neg (by omega)]
      cases hpr : (getRegion st (ctx.regionOf c.pos)).prospection with
      | none => rfl
      | some p =>
          dsimp only
          rw [if_pos (hstale p hpr)]
    exact ⟨hsucc, hred hsucc⟩
  · intro hnot
    unfold maybeStartProspecting
    dsimp only
    rw [hfind]
    dsimp only
    by_cases hb : c.busy = 0
    · rw [if_neg (by omega)]
      by_cases hpc : (getRegion st (ctx.regionOf c.pos)).prospectingCharacter = 0
      · rw [if_neg (by omega)]
        cases hpr : (getRegion st (ctx.regionOf c.pos)).prospection with
        | none =>
            exact absurd ⟨hb, hpc, fun p hp => by rw [hpr] at hp; cases hp⟩ hnot
        | some p =>
            by_cases hstale : ctx.isStale p h = true
            · refine absurd ⟨hb, hpc, fun p' hp' => ?_⟩ hnot
              rw [hpr] at hp'
              cases hp'
              exact hstale
            · dsimp only
              rw [if_neg hstale]
      · rw [if_pos (by omega)]
    · rw [if_pos (by omega)]

/-- C3 witness: character 1, idle at a position of region 7 with a clean
region, successfully starts prospecting (busy, op and region attribution
all set), while the same character with `busy = 2` changes nothing, as in
tests `ProspectingMoveTests.Success` and `CharacterUpdateTests.WhenBusy`. -/
theorem C3_prospect_preconditions_witness :
    (findChar (maybeStartProspecting ⟨fun _ => 7, fun _ _ => false, 10⟩ 5
          ⟨[newCharacter 1 "domob" .red], [], [], [], [], 6⟩ 1 (.obj [])) 1
        = some { newCharacter 1 "domob" .red with
                   movement := none, busy := 10, ongoing := some 6 }
      ∧ (⟨6, 1, 7⟩ : OngoingOp)
          ∈ (maybeStartProspecting ⟨fun _ => 7, fun _ _ => false, 10⟩ 5
              ⟨[newCharacter 1 "domob" .red], [], [], [], [], 6⟩ 1 (.obj [])).ongoings)
    ∧ maybeStartProspecting ⟨fun _ => 7, fun _ _ => false, 10⟩ 5
        ⟨[{ newCharacter 1 "domob" .red with busy := 2 }], [], [], [], [], 6⟩ 1
        (.obj [])
      = ⟨[{ newCharacter 1 "domob" .red with busy := 2 }], [], [], [], [], 6⟩ := by
  constructor
  · have := (C3_prospect_preconditions ⟨fun _ => 7, fun _ _ => false, 10⟩ 5
      ⟨[newCharacter 1 "domob" .red], [], [], [], [], 6⟩ 1
      (newCharacter 1 "domob" .red) 7 ⟨0, none⟩ (by rfl) (by rfl) (by rfl)).1
      ⟨rfl, rfl, fun p hp => by cases hp⟩
    exact ⟨this.2.1, this.2.2.1⟩
  · exact (C3_prospect_preconditions ⟨fun _ => 7, fun _ _ => false, 10⟩ 5
      ⟨[{ newCharacter 1 "domob" .red with busy := 2 }], [], [], [], [], 6⟩ 1
      { newCharacter 1 "domob" .red with busy := 2 } 7 ⟨0, none⟩
      (by rfl) (by rfl) (by rfl)).2 (by intro hx; exact absurd hx.1 (by decide))

/-! ## C2: waypoint replacement -/

theorem processMoves_wp_single (ctx : Ctx) (h : Nat) (st : GameState)
    (name s : String) (v : JsonVal) (cid : Nat) (c : Character)
    (wps : List HexCoord)
    (hid : parseIdString s = some cid) (hfind : findChar st cid = some c)
    (hown : c.owner = name) (hbusy : c.busy = 0)
    (hwp : parseWaypoints v = some wps) :
    processMoves ctx h st [⟨name, .obj [("c", .obj [(s, .obj [("wp", v)])])]⟩]
      = updateChar st cid (setWaypointsChar wps) := by
  unfold processMoves
  rw [List.foldl_cons, List.foldl_nil]
  unfold processMove
  dsimp only
  rw [show lookupField [("c", JsonVal.obj [(s, JsonVal.obj [("wp", v)])])] "c"
        = some (JsonVal.obj [(s, JsonVal.obj [("wp", v)])]) from rfl]
  dsimp only
  unfold processCharacterUpdates
  rw [List.foldl_cons, List.foldl_nil]
  unfold applyCharUpdateEntry
  dsimp only
  rw [hid]
  dsimp only
  rw [hfind]
  dsimp only
  rw [if_pos hown]
  unfold performCharacterUpdate
  dsimp only
  rw [show lookupField [("wp", v)] "send" = none from rfl,
    show lookupField [("wp", v)] "wp" = some v from rfl,
    show lookupField [("wp", v)] "prospect" = none from rfl]
  unfold maybeTransfer maybeWpStage maybeProspectStage
  dsimp only
  unfold maybeSetWaypoints
  rw [hfind]
  dsimp only
  rw [if_neg (by omega), hwp]

theorem processMoves_wp_single_invalid (ctx : Ctx) (h : Nat) (st : GameState)
    (name s : String) (v : JsonVal) (cid : Nat) (c : Character)
    (hid : parseIdString s = some cid) (hfind : findChar st cid = some c)
    (hown : c.owner = name) (hbusy : c.busy = 0)
    (hwp : parseWaypoints v = none) :
    processMoves ctx h st [⟨name, .obj [("c", .obj [(s, .obj [("wp", v)])])]⟩] = st := by
  unfold processMoves
  rw [List.foldl_cons, List.foldl_nil]
  unfold processMove
  dsimp only
  rw [show lookupField [("c", JsonVal.obj [(s, JsonVal.obj [("wp", v)])])] "c"
        = some (JsonVal.obj [(s, JsonVal.obj [("wp", v)])]) from rfl]
  dsimp only
  unfold processCharacterUpdates
  rw [List.foldl_cons, List.foldl_nil]
  unfold applyCharUpdateEntry
  dsimp only
  rw [hid]
  dsimp only
  rw [hfind]
  dsimp only
  rw [if_pos hown]
  unfold performCharacterUpdate
  dsimp only
  rw [show lookupField [("wp", v)] "send" = none from rfl,
    show lookupField [("wp", v)] "wp" = some v from rfl,
    show lookupField [("wp", v)] "prospect" = none from rfl]
  unfold maybeTransfer maybeWpStage maybeProspectStage
  dsimp only
  unfold maybeSetWaypoints
  rw [hfind]
  dsimp only
  rw [if_neg (by omega), hwp]

/-- C2 counterexample: the claim as stated fails on a busy character.
Character 1 is busy (`busy = 2`, as set up in test
`CharacterUpdateTests.WhenBusy`), the waypoint array `[(-1, 0)]` is
valid, the sender owns the character — yet the move leaves the whole
state unchanged: the waypoint queue is not replaced and `partial_step`
stays 42 instead of being reset to 0. -/
theorem C2_waypoints_counterexample :
    parseWaypoints (.arr [.obj [("x", .num (-1)), ("y", .num 0)]])
      = some [⟨-1, 0⟩]
    ∧ findChar ⟨[{ newCharacter 1 "domob" .red with
          busy := 2, partStep := 42, movement := some ⟨[⟨5, 0⟩], []⟩ }],
        [], [], [], [], 2⟩ 1
      = some { newCharacter 1 "domob" .red with
          busy := 2, partStep := 42, movement := some ⟨[⟨5, 0⟩], []⟩ }
    ∧ processMoves ⟨fun _ => 0, fun _ _ => false, 10⟩ 0
        ⟨[{ newCharacter 1 "domob" .red with
            busy := 2, partStep := 42, movement := some ⟨[⟨5, 0⟩], []⟩ }],
          [], [], [], [], 2⟩
        [⟨"domob", .obj [("c", .obj [("1", .obj
          [("wp", .arr [.obj [("x", .num (-1)), ("y", .num 0)]])])])]⟩]
      = ⟨[{ newCharacter 1 "domob" .red with
            busy := 2, partStep := 42, movement := some ⟨[⟨5, 0⟩], []⟩ }],
          [], [], [], [], 2⟩
    ∧ ¬ ((findChar (processMoves ⟨fun _ => 0, fun _ _ => false, 10⟩ 0
          ⟨[{ newCharacter 1 "domob" .red with
              busy := 2, partStep := 42, movement := some ⟨[⟨5, 0⟩], []⟩ }],
            [], [], [], [], 2⟩
          [⟨"domob", .obj [("c", .obj [("1", .obj
            [("wp", .arr [.obj [("x", .num (-1)), ("y", .num 0)]])])])]⟩]) 1).map
            (fun c => c.partStep) = some 0) := by
  refine ⟨by rfl, by rfl, by rfl, ?_⟩
  intro hcontra
  rw [show (processMoves ⟨fun _ => 0, fun _ _ => false, 10⟩ 0
        ⟨[{ newCharacter 1 "domob" .red with
            busy := 2, partStep := 42, movement := some ⟨[⟨5, 0⟩], []⟩ }],
          [], [], [], [], 2⟩
        [⟨"domob", .obj [("c", .obj [("1", .obj
          [("wp", .arr [.obj [("x", .num (-1)), ("y", .num 0)]])])])]⟩])
      = ⟨[{ newCharacter 1 "domob" .red with
            busy := 2, partStep := 42, movement := some ⟨[⟨5, 0⟩], []⟩ }],
          [], [], [], [], 2⟩ from rfl] at hcontra
  simp [findChar, List.find?, newCharacter] at hcontra

/-- C2 (amended with the busy precondition the tests mandate): for a
character move with a `wp` sub-intent on an owned, non-busy character —
if the value is a valid waypoint array, the waypoint queue is replaced by
the given list with `partial_step` reset to 0 and cached steps cleared,
and the whole block behaves exactly as if the character had already
carried the new waypoints before the block (so the replacement precedes
the block's movement stepping); if the value is not a valid waypoint
array, the whole state (movement, `partial_step`, waypoints included) is
left unchanged. -/
theorem C2_waypoints_replacement (ctx : Ctx) (h : Nat) (st : GameState)
    (rnd : Rnd) (name s : String) (v : JsonVal) (cid : Nat) (c : Character)
    (hid : parseIdString s = some cid) (hfind : findChar st cid = some c)
    (hown : c.owner = name) (hbusy : c.busy = 0) :
    (∀ wps, parseWaypoints v = some wps →
      processMoves ctx h st [⟨name, .obj [("c", .obj [(s, .obj [("wp", v)])])]⟩]
        = updateChar st cid (setWaypointsChar wps)
      ∧ findChar (updateChar st cid (setWaypointsChar wps)) cid
          = some { c with partStep := 0,
                          movement := if wps.isEmpty then none else some ⟨wps, []⟩ }
      ∧ processBlock ctx st [⟨name, .obj [("c", .obj [(s, .obj [("wp", v)])])]⟩] h rnd
          = processBlock ctx (updateChar st cid (setWaypointsChar wps)) [] h rnd)
    ∧ (parseWaypoints v = none →
      processMoves ctx h st [⟨name, .obj [("c", .obj [(s, .obj [("wp", v)])])]⟩] = st) := by
  constructor
  · intro wps hwp
    refine ⟨processMoves_wp_single ctx h st name s v cid c wps hid hfind hown hbusy hwp,
      ?_, ?_⟩
    · rw [findChar_updateChar st cid (setWaypointsChar wps)
        (fun x => rfl), hfind]
      rfl
    · unfold processBlock
      dsimp only
      rw [processMoves_wp_single ctx h (ageDamageLists h st) name s v cid c wps hid
        hfind hown hbusy hwp]
      rw [show processMoves ctx h
            (ageDamageLists h (updateChar st cid (setWaypointsChar wps))) []
          = ageDamageLists h (updateChar st cid (setWaypointsChar wps)) from rfl]
      rw [show ageDamageLists h (updateChar st cid (setWaypointsChar wps))
          = updateChar (ageDamageLists h st) cid (setWaypointsChar wps) from rfl]
  · intro hwp
    exact processMoves_wp_single_invalid ctx h st name s v cid c hid hfind hown hbusy hwp

/-- C2 witness: the scenario of test `PXLogicTests.WaypointsBeforeMovement`
— character 1 at the origin with `partial_step = 1000`, speed 750 and old
waypoint `(5, 0)` gets waypoints `[(-1, 0)]`; the block leaves it at the
origin (no step toward the old waypoint), and the invalid value `"foo"`
changes nothing. -/
theorem C2_waypoints_replacement_witness :
    (processMoves ⟨fun _ => 0, fun _ _ => false, 10⟩ 5
        ⟨[{ newCharacter 1 "domob" .red with
            speed := 750, partStep := 1000, movement := some ⟨[⟨5, 0⟩], []⟩, hp := ⟨10, 10, 0⟩ }],
          [], [], [], [], 2⟩
        [⟨"domob", .obj [("c", .obj [("1", .obj
          [("wp", .arr [.obj [("x", .num (-1)), ("y", .num 0)]])])])]⟩]
      = updateChar ⟨[{ newCharacter 1 "domob" .red with
            speed := 750, partStep := 1000, movement := some ⟨[⟨5, 0⟩], []⟩, hp := ⟨10, 10, 0⟩ }],
          [], [], [], [], 2⟩ 1 (setWaypointsChar [⟨-1, 0⟩]))
    ∧ processBlock ⟨fun _ => 0, fun _ _ => false, 10⟩
        ⟨[{ newCharacter 1 "domob" .red with
            speed := 750, partStep := 1000, movement := some ⟨[⟨5, 0⟩], []⟩, hp := ⟨10, 10, 0⟩ }],
          [], [], [], [], 2⟩
        [⟨"domob", .obj [("c", .obj [("1", .obj
          [("wp", .arr [.obj [("x", .num (-1)), ("y", .num 0)]])])])]⟩] 5
        ⟨fun _ => 0, 0⟩
      = processBlock ⟨fun _ => 0, fun _ _ => false, 10⟩
          (updateChar ⟨[{ newCharacter 1 "domob" .red with
              speed := 750, partStep := 1000, movement := some ⟨[⟨5, 0⟩], []⟩, hp := ⟨10, 10, 0⟩ }],
            [], [], [], [], 2⟩ 1 (setWaypointsChar [⟨-1, 0⟩])) [] 5 ⟨fun _ => 0, 0⟩
    ∧ (findChar (processBlock ⟨fun _ => 0, fun _ _ => false, 10⟩
        ⟨[{ newCharacter 1 "domob" .red with
            speed := 750, partStep := 1000, movement := some ⟨[⟨5, 0⟩], []⟩, hp := ⟨10, 10, 0⟩ }],
          [], [], [], [], 2⟩
        [⟨"domob", .obj [("c", .obj [("1", .obj
          [("wp", .arr [.obj [("x", .num (-1)), ("y", .num 0)]])])])]⟩] 5
        ⟨fun _ => 0, 0⟩) 1).map (fun c => c.pos) = some ⟨0, 0⟩
    ∧ processMoves ⟨fun _ => 0, fun _ _ => false, 10⟩ 5
        ⟨[{ newCharacter 1 "domob" .red with
            speed := 750, partStep := 1000, movement := some ⟨[⟨5, 0⟩], []⟩, hp := ⟨10, 10, 0⟩ }],
          [], [], [], [], 2⟩
        [⟨"domob", .obj [("c", .obj [("1", .obj [("wp", .str "foo")])])]⟩]
      = ⟨[{ newCharacter 1 "domob" .red with
            speed := 750, partStep := 1000, movement := some ⟨[⟨5, 0⟩], []⟩, hp := ⟨10, 10, 0⟩ }],
          [], [], [], [], 2⟩ := by
  have hmain := C2_waypoints_replacement ⟨fun _ => 0, fun _ _ => false, 10⟩ 5
    ⟨[{ newCharacter 1 "domob" .red with
        speed := 750, partStep := 1000, movement := some ⟨[⟨5, 0⟩], []⟩, hp := ⟨10, 10, 0⟩ }],
      [], [], [], [], 2⟩ ⟨fun _ => 0, 0⟩ "domob" "1"
    (.arr [.obj [("x", .num (-1)), ("y", .num 0)]]) 1
    { newCharacter 1 "domob" .red with
        speed := 750, partStep := 1000, movement := some ⟨[⟨5, 0⟩], []⟩, hp := ⟨10, 10, 0⟩ }
    (by rfl) (by rfl) (by rfl) (by rfl)
  have hvalid := hmain.1 [⟨-1, 0⟩] (by rfl)
  have hinv := (C2_waypoints_replacement ⟨fun _ => 0, fun _ _ => false, 10⟩ 5
    ⟨[{ newCharacter 1 "domob" .red with
        speed := 750, partStep := 1000, movement := some ⟨[⟨5, 0⟩], []⟩, hp := ⟨10, 10, 0⟩ }],
      [], [], [], [], 2⟩ ⟨fun _ => 0, 0⟩ "domob" "1" (.str "foo") 1
    { newCharacter 1 "domob" .red with
        speed := 750, partStep := 1000, movement := some ⟨[⟨5, 0⟩], []⟩, hp := ⟨10, 10, 0⟩ }
    (by rfl) (by rfl) (by rfl) (by rfl)).2 (by rfl)
  exact ⟨hvalid.1, hvalid.2.2, by rw [hvalid.2.2]; rfl, hinv⟩

/-! ## C8: the pathfinder stepper -/

theorem stepperBest_eq_foldl (fd : DistanceField) (pos : HexCoord) :
    stepperBest fd pos = (stepCandidates fd pos).foldl keepMinStep none := by
  have h : ∀ (ns : List HexCoord) (acc : Option (HexCoord × Nat)),
      ns.foldl (fun best n =>
        if fd.inRange n then
          match fd.get n with
          | none => best
          | some dn => keepMinStep best (n, dn)
        else best) acc
      = (ns.filterMap (fun n =>
          if fd.inRange n then (fd.get n).map (fun dn => (n, dn)) else none)).foldl
          keepMinStep acc := by
    intro ns
    induction ns with
    | nil => intro acc; rfl
    | cons n t ih =>
        intro acc
        rw [List.foldl_cons, List.filterMap_cons]
        cases hr : fd.inRange n with
        | true =>
            simp only [reduceIte]
            cases hg : fd.get n with
            | none => dsimp only; exact ih acc
            | some dn =>
                dsimp only [Option.map_some']
                rw [List.foldl_cons]
                exact ih _
        | false =>
            try simp only [reduceIte]
            try dsimp only
            exact ih acc
  exact h pos.neighbours none

theorem foldl_keepMinStep_some (xs : List (HexCoord × Nat)) :
    ∀ y, xs.foldl keepMinStep (some y)
      = match firstMinPair xs with
        | none => some y
        | some z => if z.2 < y.2 then some z else some y := by
  induction xs with
  | nil => intro y; rfl
  | cons x t ih =>
      intro y
      rw [List.foldl_cons]
      unfold firstMinPair
      cases hfm : firstMinPair t with
      | none =>
          dsimp only
          by_cases c2 : x.2 < y.2
          · rw [show keepMinStep (some y) x = some x from by
              dsimp only [keepMinStep]; exact if_pos c2]
            rw [ih x, hfm]
            dsimp only
            rw [if_pos c2]
          · rw [show keepMinStep (some y) x = some y from by
              dsimp only [keepMinStep]; exact if_neg c2]
            rw [ih y, hfm]
            dsimp only
            rw [if_neg c2]
      | some z =>
          dsimp only
          by_cases c3 : z.2 < x.2
          · by_cases c2 : x.2 < y.2
            · rw [show keepMinStep (some y) x = some x from by
                dsimp only [keepMinStep]; exact if_pos c2]
              rw [ih x, hfm]
              simp only [if_pos c3, if_pos (show z.2 < y.2 by omega)]
            · rw [show keepMinStep (some y) x = some y from by
                dsimp only [keepMinStep]; exact if_neg c2]
              rw [ih y, hfm]
              simp only [if_pos c3]
          · by_cases c2 : x.2 < y.2
            · rw [show keepMinStep (some y) x = some x from by
                dsimp only [keepMinStep]; exact if_pos c2]
              rw [ih x, hfm]
              simp only [if_neg c3, if_pos c2]
            · rw [show keepMinStep (some y) x = some y from by
                dsimp only [keepMinStep]; exact if_neg c2]
              rw [ih y, hfm]
              simp only [if_neg c3, if_neg c2,
                if_neg (show ¬ z.2 < y.2 by omega)]

theorem foldl_keepMinStep_none (xs : List (HexCoord × Nat)) :
    xs.foldl keepMinStep none = firstMinPair xs := by
  cases xs with
  | nil => rfl
  | cons x t =>
      rw [List.foldl_cons, show keepMinStep none x = some x from rfl,
        foldl_keepMinStep_some]
      rfl

theorem firstMinPair_cons (x : HexCoord × Nat) (t : List (HexCoord × Nat)) :
    firstMinPair (x :: t)
      = match firstMinPair t with
        | none => some x
        | some z => if z.2 < x.2 then some z else some x := rfl

theorem firstMinPair_eq_none (xs : List (HexCoord × Nat))
    (h : firstMinPair xs = none) : xs = [] := by
  cases xs with
  | nil => rfl
  | cons a s =>
      rw [firstMinPair_cons] at h
      cases hfm : firstMinPair s with
      | none => rw [hfm] at h; cases h
      | some z =>
          rw [hfm] at h
          dsimp only at h
          split_ifs at h

theorem firstMinPair_mem (xs : List (HexCoord × Nat)) (y : HexCoord × Nat)
    (h : firstMinPair xs = some y) : y ∈ xs := by
  induction xs generalizing y with
  | nil => cases h
  | cons x t ih =>
      rw [firstMinPair_cons] at h
      cases hfm : firstMinPair t with
      | none => rw [hfm] at h; cases h; exact List.mem_cons_self _ _
      | some z =>
          rw [hfm] at h
          dsimp only at h
          split_ifs at h with hlt
          · cases h; exact List.mem_cons_of_mem _ (ih _ hfm)
          · cases h; exact List.mem_cons_self _ _

theorem firstMinPair_le (xs : List (HexCoord × Nat)) (y : HexCoord × Nat)
    (h : firstMinPair xs = some y) : ∀ x ∈ xs, y.2 ≤ x.2 := by
  induction xs generalizing y with
  | nil => cases h
  | cons x t ih =>
      rw [firstMinPair_cons] at h
      intro w hw
      cases hfm : firstMinPair t with
      | none =>
          rw [hfm] at h
          cases h
          rcases firstMinPair_eq_none t hfm with rfl
          rcases List.mem_singleton.mp hw with rfl
          exact Nat.le_refl _
      | some z =>
          rw [hfm] at h
          dsimp only at h
          rcases List.mem_cons.mp hw with rfl | hwt
          · split_ifs at h with hlt
            · cases h; omega
            · cases h; exact Nat.le_refl _
          · split_ifs at h with hlt
            · cases h; exact ih _ hfm w hwt
            · cases h
              have := ih _ hfm w hwt
              omega

theorem firstMinPair_first (xs : List (HexCoord × Nat)) (y : HexCoord × Nat)
    (h : firstMinPair xs = some y) :
    xs.find? (fun x => x.2 ≤ y.2) = some y := by
  induction xs generalizing y with
  | nil => cases h
  | cons x t ih =>
      rw [firstMinPair_cons] at h
      cases hfm : firstMinPair t with
      | none =>
          rw [hfm] at h
          cases h
          simp [List.find?]
      | some z =>
          rw [hfm] at h
          dsimp only at h
          split_ifs at h with hlt
          · cases h
            rw [List.find?_cons_of_neg _ (by simp; omega), ih _ hfm]
          · cases h
            rw [List.find?_cons_of_pos _ (by simp)]

theorem firstMinPair_of_ne_nil (xs : List (HexCoord × Nat)) (h : xs ≠ []) :
    ∃ y, firstMinPair xs = some y := by
  cases xs with
  | nil => exact absurd rfl h
  | cons x t =>
      rw [firstMinPair_cons]
      cases firstMinPair t with
      | none => exact ⟨x, rfl⟩
      | some z =>
          dsimp only
          split_ifs
          · exact ⟨z, rfl⟩
          · exact ⟨x, rfl⟩

theorem stepCandidates_mem (fd : DistanceField) (pos : HexCoord)
    (x : HexCoord × Nat) :
    x ∈ stepCandidates fd pos
      ↔ x.1 ∈ pos.neighbours ∧ fd.inRange x.1 = true ∧ fd.get x.1 = some x.2 := by
  unfold stepCandidates
  rw [List.mem_filterMap]
  constructor
  · rintro ⟨a, ha, hfa⟩
    by_cases hr : fd.inRange a
    · rw [if_pos hr] at hfa
      cases hg : fd.get a with
      | none => rw [hg] at hfa; cases hfa
      | some dn =>
          rw [hg] at hfa
          cases hfa
          exact ⟨ha, hr, hg⟩
    · rw [if_neg hr] at hfa
      cases hfa
  · rintro ⟨hmem, hr, hg⟩
    exact ⟨x.1, hmem, by rw [if_pos hr, hg]; simp⟩

theorem stepperNext_spec (fd : DistanceField) (hfd : ProperField fd)
    (pos : HexCoord) (d : Nat) (hpos : fd.get pos = some d) (hd : 0 < d) :
    ∃ n d', stepperNext fd pos = some (n, d - d')
      ∧ fd.get n = some d' ∧ d' < d
      ∧ n ∈ pos.neighbours ∧ fd.inRange n = true
      ∧ (∀ y ∈ stepCandidates fd pos, d' ≤ y.2)
      ∧ (stepCandidates fd pos).find? (fun y => y.2 ≤ d') = some (n, d') := by
  obtain ⟨n0, hn0mem, hn0r, d0, hd0, hd0lt⟩ := hfd pos d hpos hd
  have hcand : (n0, d0) ∈ stepCandidates fd pos :=
    (stepCandidates_mem fd pos (n0, d0)).mpr ⟨hn0mem, hn0r, hd0⟩
  obtain ⟨y, hy⟩ := firstMinPair_of_ne_nil (stepCandidates fd pos)
    (List.ne_nil_of_mem hcand)
  have hymem := firstMinPair_mem _ _ hy
  obtain ⟨hynb, hyr, hyg⟩ := (stepCandidates_mem fd pos y).mp hymem
  have hymin := firstMinPair_le _ _ hy
  have hylt : y.2 < d := Nat.lt_of_le_of_lt (hymin _ hcand) hd0lt
  obtain ⟨yn, yd⟩ := y
  dsimp only at hyg hylt hymin
  refine ⟨yn, yd, ?_, hyg, hylt, hynb, hyr, hymin, firstMinPair_first _ _ hy⟩
  unfold stepperNext
  rw [hpos]
  dsimp only
  rw [if_neg (by omega)]
  rw [stepperBest_eq_foldl, foldl_keepMinStep_none, hy]
  dsimp only
  rw [if_pos (by omega)]

theorem stepWalk_reaches (fd : DistanceField) (hfd : ProperField fd) :
    ∀ d pos fuel, fd.get pos = some d → d ≤ fuel →
      ∃ q, stepWalk fd fuel pos = some q ∧ fd.get q = some 0 := by
  intro d
  induction d using Nat.strong_induction_on with
  | _ d ih =>
      intro pos fuel hpos hfuel
      cases d with
      | zero =>
          cases fuel with
          | zero => exact ⟨pos, by unfold stepWalk; rw [hpos], hpos⟩
          | succ f => exact ⟨pos, by unfold stepWalk; rw [hpos], hpos⟩
      | succ d' =>
          obtain ⟨n, dn, hnext, hgn, hlt, -, -, -, -⟩ :=
            stepperNext_spec fd hfd pos (d' + 1) hpos (Nat.succ_pos d')
          cases fuel with
          | zero => omega
          | succ f =>
              obtain ⟨q, hq, hq0⟩ := ih dn hlt n f hgn (by omega)
              refine ⟨q, ?_, hq0⟩
              unfold stepWalk
              rw [hpos]
              try dsimp only
              rw [hnext]
              exact hq

/-- C8: from any tile whose computed distance is finite and positive,
`Next()` moves to an in-range neighbour of strictly smaller distance —
the minimum over the candidate neighbours, tie-broken as the first such
neighbour in the fixed enumeration order — and returns the cost consumed,
namely the difference between the current tile's distance and the chosen
neighbour's; iterating `Next()` until the distance reaches zero walks
from the source to the origin. -/
theorem C8_path_stepper (fd : DistanceField) (hfd : ProperField fd)
    (pos : HexCoord) (d : Nat) (hpos : fd.get pos = some d) :
    (0 < d →
      ∃ n d', stepperNext fd pos = some (n, d - d')
        ∧ fd.get n = some d' ∧ d' < d
        ∧ n ∈ pos.neighbours ∧ fd.inRange n = true
        ∧ (∀ y ∈ stepCandidates fd pos, d' ≤ y.2)
        ∧ (stepCandidates fd pos).find? (fun y => y.2 ≤ d') = some (n, d'))
    ∧ ∃ q, stepWalk fd d pos = some q ∧ fd.get q = some 0 := by
  exact ⟨fun hd => stepperNext_spec fd hfd pos d hpos hd,
    stepWalk_reaches fd hfd d pos d hpos (Nat.le_refl d)⟩

theorem lineField_proper : ProperField lineField := by
  intro p d hp hd
  unfold lineField at hp
  dsimp only at hp
  split_ifs at hp with h1 h2 h3
  · cases hp; omega
  · cases hp
    subst h2
    refine ⟨⟨0, 0⟩, by decide, rfl, 0, by decide, by omega⟩
  · cases hp
    subst h3
    refine ⟨⟨1, 0⟩, by decide, rfl, 1, by decide, by omega⟩

/-- C8 witness: on the concrete three-tile line field, the stepper from
the tile at distance 2 makes a strictly-decreasing first step and the
walk reaches the origin. -/
theorem C8_path_stepper_witness :
    lineField.get ⟨2, 0⟩ = some 2
    ∧ ((0 < 2 →
        ∃ n d', stepperNext lineField ⟨2, 0⟩ = some (n, 2 - d')
          ∧ lineField.get n = some d' ∧ d' < 2
          ∧ n ∈ (⟨2, 0⟩ : HexCoord).neighbours ∧ lineField.inRange n = true
          ∧ (∀ y ∈ stepCandidates lineField ⟨2, 0⟩, d' ≤ y.2)
          ∧ (stepCandidates lineField ⟨2, 0⟩).find? (fun y => y.2 ≤ d')
              = some (n, d'))
      ∧ ∃ q, stepWalk lineField 2 ⟨2, 0⟩ = some q ∧ lineField.get q = some 0) := by
  exact ⟨by decide,
    C8_path_stepper lineField lineField_proper ⟨2, 0⟩ 2 (by decide)⟩

/-! ## C10: spawning starts at full health on a free registered tile -/

theorem chooseSpawnFrom_spec (map : BaseMap) (dyn : DynObstacles) (f : Faction)
    (rc : HexCoord) :
    ∀ fuel rad p, chooseSpawnFrom map dyn f rc fuel rad = some p →
      map.isOnMap p = true ∧ map.isPassable p = true ∧ dyn.isPassable p f = true := by
  intro fuel
  induction fuel with
  | zero => intro rad p hp; cases hp
  | succ g ih =>
      intro rad p hp
      unfold chooseSpawnFrom at hp
      dsimp only at hp
      cases hfind : (l1Ring rc rad).find? (fun q =>
          map.isOnMap q && map.isPassable q && dyn.isPassable q f) with
      | some q =>
          rw [hfind] at hp
          cases hp
          have := List.find?_some hfind
          simp only [Bool.and_eq_true] at this
          exact ⟨this.1.1, this.1.2, this.2⟩
      | none =>
          rw [hfind] at hp
          dsimp only at hp
          split_ifs at hp
          exact ih (rad + 1) p hp

theorem chooseSpawnLocation_spec (f : Faction) (rnd : Rnd) (map : BaseMap)
    (dyn : DynObstacles) (params : SpawnParams) (fuelLoc fuelRing : Nat)
    (p : HexCoord) (rnd' : Rnd)
    (h : chooseSpawnLocation f rnd map dyn params fuelLoc fuelRing = some (p, rnd')) :
    map.isOnMap p = true ∧ map.isPassable p = true ∧ dyn.isPassable p f = true := by
  unfold chooseSpawnLocation at h
  dsimp only at h
  cases hloc : randomSpawnLocation (params.spawnCentre f) (params.spawnRadius f)
      rnd fuelLoc with
  | none => rw [hloc] at h; cases h
  | some rc =>
      obtain ⟨rcp, rcr⟩ := rc
      rw [hloc] at h
      dsimp only at h
      cases hfrom : chooseSpawnFrom map dyn f rcp fuelRing 0 with
      | none => rw [hfrom] at h; cases h
      | some q =>
          rw [hfrom] at h
          dsimp only at h
          cases h
          exact chooseSpawnFrom_spec map dyn f rcp fuelRing 0 _ hfrom

theorem dyn_not_passable_after_add (dyn : DynObstacles) (pos : HexCoord)
    (f f' : Faction) : (dyn.addVehicle pos f).isPassable pos f' = false := by
  simp [DynObstacles.isPassable, DynObstacles.addVehicle]

/-- C10: a successful `SpawnCharacter` appends exactly one fresh
character row, whose HP equals the `max_hp` of its freshly initialised
regeneration data, whose position is the location chosen by the spawn
algorithm (a passable tile free of vehicles), and whose tile is
immediately registered on the dynamic obstacle map — making the tile
impassable for every faction, so that any later spawn-location choice in
the same block can no longer pick it. -/
theorem C10_spawn_full_health (owner : String) (f : Faction) (st : GameState)
    (dyn : DynObstacles) (rnd : Rnd) (map : BaseMap) (params : SpawnParams)
    (fl fr cid : Nat) (st' : GameState) (dyn' : DynObstacles) (rnd' : Rnd)
    (hs : spawnCharacter owner f st dyn rnd map params fl fr
        = some (cid, st', dyn', rnd')) :
    ∃ c : Character,
      st'.characters = st.characters ++ [c]
      ∧ c.id = cid ∧ c.owner = owner ∧ c.faction = f
      ∧ c.hp = params.initRegen.maxHp
      ∧ c.regen = params.initRegen
      ∧ chooseSpawnLocation f rnd map dyn params fl fr = some (c.pos, rnd')
      ∧ map.isPassable c.pos = true ∧ dyn.isPassable c.pos f = true
      ∧ dyn' = dyn.addVehicle c.pos f
      ∧ (∀ f', dyn'.isPassable c.pos f' = false)
      ∧ (∀ (f'' : Faction) (r2 : Rnd) (q : HexCoord) (r3 : Rnd) (g1 g2 : Nat),
          chooseSpawnLocation f'' r2 map dyn' params g1 g2 = some (q, r3) →
          q ≠ c.pos) := by
  unfold spawnCharacter at hs
  cases hc : chooseSpawnLocation f rnd map dyn params fl fr with
  | none => rw [hc] at hs; cases hs
  | some pr =>
      obtain ⟨pos, rr⟩ := pr
      rw [hc] at hs
      dsimp only at hs
      cases hs
      refine ⟨{ newCharacter st.nextId owner f with
                  pos := pos, regen := params.initRegen,
                  hp := params.initRegen.maxHp },
        rfl, rfl, rfl, rfl, rfl, rfl, ?_, ?_, ?_, rfl, ?_, ?_⟩
      · rfl
      · exact (chooseSpawnLocation_spec f rnd map dyn params fl fr pos rnd' hc).2.1
      · exact (chooseSpawnLocation_spec f rnd map dyn params fl fr pos rnd' hc).2.2
      · intro f'
        exact dyn_not_passable_after_add dyn pos f f'
      · intro f'' r2 q r3 g1 g2 hq hqe
        have hpass := (chooseSpawnLocation_spec f'' r2 map (dyn.addVehicle pos f)
          params g1 g2 q r3 hq).2.2
        rw [hqe, dyn_not_passable_after_add] at hpass
        cases hpass

/-- C10 witness: on an all-passable map with an empty obstacle map, the
spawn at the red centre succeeds, the new character has full HP
`(30, 70)` from the fresh regeneration data, and the chosen tile is
registered as occupied. -/
theorem C10_spawn_full_health_witness :
    spawnCharacter "domob" .red ⟨[], [], [], [], [], 1⟩ ⟨[]⟩ ⟨fun _ => 1, 0⟩
        ⟨fun _ => true, fun _ => true⟩
        ⟨fun _ => ⟨0, 0⟩, fun _ => 1, ⟨⟨30, 70, 0⟩, 100⟩⟩ 3 3
      = some (1,
          ⟨[{ newCharacter 1 "domob" .red with
                pos := ⟨0, 0⟩, regen := ⟨⟨30, 70, 0⟩, 100⟩,
                hp := ⟨30, 70, 0⟩ }], [], [], [], [], 2⟩,
          ⟨[(⟨0, 0⟩, .red)]⟩, ⟨fun _ => 1, 2⟩)
    ∧ ∃ c : Character,
        (⟨[{ newCharacter 1 "domob" .red with
              pos := ⟨0, 0⟩, regen := ⟨⟨30, 70, 0⟩, 100⟩,
              hp := ⟨30, 70, 0⟩ }], [], [], [], [], 2⟩ : GameState).characters
          = ([] : List Character) ++ [c]
        ∧ c.id = 1 ∧ c.owner = "domob" ∧ c.faction = .red
        ∧ c.hp = (⟨⟨30, 70, 0⟩, 100⟩ : RegenData).maxHp
        ∧ c.regen = (⟨⟨30, 70, 0⟩, 100⟩ : RegenData)
        ∧ chooseSpawnLocation .red ⟨fun _ => 1, 0⟩ ⟨fun _ => true, fun _ => true⟩
            ⟨[]⟩ ⟨fun _ => ⟨0, 0⟩, fun _ => 1, ⟨⟨30, 70, 0⟩, 100⟩⟩ 3 3
            = some (c.pos, ⟨fun _ => 1, 2⟩)
        ∧ (⟨fun _ => true, fun _ => true⟩ : BaseMap).isPassable c.pos = true
        ∧ (⟨[]⟩ : DynObstacles).isPassable c.pos .red = true
        ∧ (⟨[(⟨0, 0⟩, .red)]⟩ : DynObstacles) = DynObstacles.addVehicle ⟨[]⟩ c.pos .red
        ∧ (∀ f', (⟨[(⟨0, 0⟩, .red)]⟩ : DynObstacles).isPassable c.pos f' = false)
        ∧ (∀ (f'' : Faction) (r2 : Rnd) (q : HexCoord) (r3 : Rnd) (g1 g2 : Nat),
            chooseSpawnLocation f'' r2 ⟨fun _ => true, fun _ => true⟩
                ⟨[(⟨0, 0⟩, .red)]⟩ ⟨fun _ => ⟨0, 0⟩, fun _ => 1, ⟨⟨30, 70, 0⟩, 100⟩⟩
                g1 g2 = some (q, r3) →
            q ≠ c.pos) := by
  have hs : spawnCharacter "domob" .red ⟨[], [], [], [], [], 1⟩ ⟨[]⟩ ⟨fun _ => 1, 0⟩
      ⟨fun _ => true, fun _ => true⟩
      ⟨fun _ => ⟨0, 0⟩, fun _ => 1, ⟨⟨30, 70, 0⟩, 100⟩⟩ 3 3
      = some (1,
          ⟨[{ newCharacter 1 "domob" .red with
                pos := ⟨0, 0⟩, regen := ⟨⟨30, 70, 0⟩, 100⟩,
                hp := ⟨30, 70, 0⟩ }], [], [], [], [], 2⟩,
          ⟨[(⟨0, 0⟩, .red)]⟩, ⟨fun _ => 1, 2⟩) := by rfl
  exact ⟨hs, C10_spawn_full_health "domob" .red ⟨[], [], [], [], [], 1⟩ ⟨[]⟩
    ⟨fun _ => 1, 0⟩ ⟨fun _ => true, fun _ => true⟩
    ⟨fun _ => ⟨0, 0⟩, fun _ => 1, ⟨⟨30, 70, 0⟩, 100⟩⟩ 3 3 1 _ _ _ hs⟩

/-! ## C1: mutual lethality -/

theorem rollDamage_ge (mn mx r : Nat) : mn ≤ rollDamage mn mx r :=
  Nat.le_add_right _ _

theorem applyDamage_lethal (d : Nat) (hp : HP) (h : hp.shield + hp.armour < d) :
    applyDamage d hp = ⟨0, 0, hp.shieldMhp⟩ := by
  unfold applyDamage
  rw [if_pos (by omega), if_pos (by omega)]

theorem applyDamage_total_le (d : Nat) (hp : HP) :
    (applyDamage d hp).shield + (applyDamage d hp).armour ≤ hp.shield + hp.armour := by
  unfold applyDamage
  split
  · split <;> simp only <;> omega
  · simp only
    omega

theorem applyDamage_zero_hp (d m : Nat) :
    applyDamage d (⟨0, 0, m⟩ : HP) = ⟨0, 0, m⟩ := by
  simp [applyDamage]

theorem foldl_attackStep_zero (atks : List Attack) :
    ∀ (rnd : Rnd) (m : Nat),
      (atks.foldl attackStep ((⟨0, 0, m⟩ : HP), rnd)).1 = (⟨0, 0, m⟩ : HP) := by
  induction atks with
  | nil => intro rnd m; rfl
  | cons atk t ih =>
      intro rnd m
      rw [List.foldl_cons,
        show attackStep ((⟨0, 0, m⟩ : HP), rnd) atk
          = ((⟨0, 0, m⟩ : HP), (rndNext rnd).2) from by
            rw [show attackStep ((⟨0, 0, m⟩ : HP), rnd) atk
              = (applyDamage (rollDamage atk.dmgMin atk.dmgMax (rndNext rnd).1)
                  (⟨0, 0, m⟩ : HP), (rndNext rnd).2) from rfl,
              applyDamage_zero_hp]]
      exact ih _ m

theorem foldl_attackStep_lethal (atks : List Attack) :
    ∀ (hp : HP) (rnd : Rnd),
      (∃ atk ∈ atks, hp.shield + hp.armour < atk.dmgMin) →
      (atks.foldl attackStep (hp, rnd)).1.shield = 0
      ∧ (atks.foldl attackStep (hp, rnd)).1.armour = 0 := by
  induction atks with
  | nil =>
      intro hp rnd hx
      rcases hx with ⟨atk, hmem, -⟩
      cases hmem
  | cons atk t ih =>
      intro hp rnd hx
      rw [List.foldl_cons]
      rcases hx with ⟨katk, hmem, hk⟩
      rw [show attackStep (hp, rnd) atk
          = (applyDamage (rollDamage atk.dmgMin atk.dmgMax (rndNext rnd).1) hp,
             (rndNext rnd).2) from rfl]
      rcases List.mem_cons.mp hmem with rfl | hmt
      · rw [applyDamage_lethal _ hp
          (Nat.lt_of_lt_of_le hk (rollDamage_ge _ _ _))]
        constructor
        · rw [foldl_attackStep_zero t _ _]
        · rw [foldl_attackStep_zero t _ _]
      · have hle := applyDamage_total_le
          (rollDamage atk.dmgMin atk.dmgMax (rndNext rnd).1) hp
        exact ih _ _ ⟨katk, hmt, by omega⟩

theorem findTargetFor_eval (st : GameState) (rnd : Rnd) (aid : Nat)
    (c t : Character) (hfa : findChar st aid = some c)
    (hcands : st.characters.filter
        (fun o => o.faction ≠ c.faction ∧ hexDist c.pos o.pos ≤ maxAttackRange c)
      = [t])
    (hdist : hexDist c.pos t.pos ≤ maxAttackRange c) :
    findTargetFor (st, rnd) aid
      = (updateChar st aid (fun x => { x with target := some t.id }),
         (rndNext rnd).2) := by
  unfold findTargetFor
  dsimp only
  rw [hfa]
  dsimp only
  rw [hcands]
  dsimp only [List.map_cons, List.map_nil, List.foldl_cons, List.foldl_nil]
  rw [show Nat.min (maxAttackRange c) (hexDist c.pos t.pos)
        = hexDist c.pos t.pos from Nat.min_eq_right hdist]
  rw [show List.filter (fun o => decide (hexDist c.pos o.pos = hexDist c.pos t.pos))
        [t] = [t] from by simp]
  dsimp only [List.length_cons, List.length_nil]
  rw [Nat.mod_one]
  rfl

theorem dealDamageFrom_eval (h : Nat) (st : GameState) (rnd : Rnd)
    (aid vid : Nat) (atkr victim : Character)
    (hfa : findChar st aid = some atkr) (htg : atkr.target = some vid)
    (hfv : findChar st vid = some victim)
    (hhit : (atkr.attacks.filter
        (fun atk => hexDist atkr.pos victim.pos ≤ atk.range)).isEmpty = false) :
    dealDamageFrom h (st, rnd) aid
      = (addDLHit (updateChar st vid (fun c => { c with hp :=
            ((atkr.attacks.filter
                (fun atk => hexDist atkr.pos victim.pos ≤ atk.range)).foldl
              attackStep (victim.hp, rnd)).1 })) vid aid h,
         ((atkr.attacks.filter
            (fun atk => hexDist atkr.pos victim.pos ≤ atk.range)).foldl
            attackStep (victim.hp, rnd)).2) := by
  unfold dealDamageFrom
  dsimp only
  rw [hfa]
  dsimp only
  rw [htg]
  dsimp only
  rw [hfv]
  dsimp only
  rw [if_neg (by rw [hhit]; exact Bool.false_ne_true)]

theorem dealDamageFrom_eval2 (h : Nat) (st : GameState) (rnd : Rnd)
    (aid vid : Nat) (atkr victim : Character) (hits : List Attack)
    (hp' : HP) (rnd' : Rnd)
    (hfa : findChar st aid = some atkr) (htg : atkr.target = some vid)
    (hfv : findChar st vid = some victim)
    (hhits : atkr.attacks.filter
        (fun atk => hexDist atkr.pos victim.pos ≤ atk.range) = hits)
    (hne : hits.isEmpty = false)
    (hfold : hits.foldl attackStep (victim.hp, rnd) = (hp', rnd')) :
    dealDamageFrom h (st, rnd) aid
      = (addDLHit (updateChar st vid (fun c => { c with hp := hp' })) vid aid h,
         rnd') := by
  rw [dealDamageFrom_eval h st rnd aid vid atkr victim hfa htg hfv
    (by rw [hhits]; exact hne)]
  rw [hhits, hfold]

theorem isEmpty_false_of_mem {α : Type} {x : α} {l : List α} (h : x ∈ l) :
    l.isEmpty = false := by
  cases l with
  | nil => cases h
  | cons y t => rfl

theorem foldl_max_range_init_le (l : List Attack) :
    ∀ init : Nat, init ≤ l.foldl (fun m k => max m k.range) init := by
  induction l with
  | nil => intro init; exact Nat.le_refl _
  | cons x t ih =>
      intro init
      rw [List.foldl_cons]
      exact le_trans (Nat.le_max_left _ _) (ih _)

theorem foldl_max_range_ge (l : List Attack) :
    ∀ (init : Nat) (atk : Attack), atk ∈ l →
      atk.range ≤ l.foldl (fun m k => max m k.range) init := by
  induction l with
  | nil => intro _ _ hmem; cases hmem
  | cons x t ih =>
      intro init atk hmem
      rw [List.foldl_cons]
      rcases List.mem_cons.mp hmem with rfl | hmt
      · exact le_trans (Nat.le_max_right _ _) (foldl_max_range_init_le t _)
      · exact ih _ atk hmt

theorem range_le_maxAttackRange {atk : Attack} {c : Character}
    (h : atk ∈ c.attacks) : atk.range ≤ maxAttackRange c :=
  foldl_max_range_ge c.attacks 0 atk h

theorem updateChar_pair_fst (x y : Character) (rg : List (Nat × Region))
    (og : List OngoingOp) (dl : List DLEntry) (ks : List (String × Nat))
    (nid : Nat) (cid : Nat) (f : Character → Character)
    (hx : x.id = cid) (hy : ¬ y.id = cid) :
    updateChar (⟨[x, y], rg, og, dl, ks, nid⟩ : GameState) cid f
      = ⟨[f x, y], rg, og, dl, ks, nid⟩ := by
  unfold updateChar
  dsimp only [List.map_cons, List.map_nil]
  rw [if_pos hx, if_neg hy]

theorem updateChar_pair_snd (x y : Character) (rg : List (Nat × Region))
    (og : List OngoingOp) (dl : List DLEntry) (ks : List (String × Nat))
    (nid : Nat) (cid : Nat) (f : Character → Character)
    (hx : ¬ x.id = cid) (hy : y.id = cid) :
    updateChar (⟨[x, y], rg, og, dl, ks, nid⟩ : GameState) cid f
      = ⟨[x, f y], rg, og, dl, ks, nid⟩ := by
  unfold updateChar
  dsimp only [List.map_cons, List.map_nil]
  rw [if_neg hx, if_pos hy]

/-- C1: for two characters of opposing factions that are mutually lethal
(each has an attack in range of the other whose minimum damage exceeds the
other's remaining shield plus armour) and have each other as acquired
targets at the start of the block, processing the block kills both:  both
character rows are deleted, each owner's kills counter advances by one,
and each victim's damage list records the other character as attacker
(target acquisition runs before damage application in the pipeline). -/
theorem C1_mutual_kill (ctx : Ctx) (h : Nat) (rnd : Rnd)
    (a b : Character) (rg : List (Nat × Region)) (og : List OngoingOp)
    (ks : List (String × Nat)) (nid : Nat)
    (hid : ¬ a.id = b.id) (hfac : ¬ a.faction = b.faction)
    (hown : a.owner ≠ b.owner)
    (atkA : Attack) (haA : atkA ∈ a.attacks)
    (hrA : hexDist a.pos b.pos ≤ atkA.range)
    (hlA : b.hp.shield + b.hp.armour < atkA.dmgMin)
    (atkB : Attack) (haB : atkB ∈ b.attacks)
    (hrB : hexDist b.pos a.pos ≤ atkB.range)
    (hlB : a.hp.shield + a.hp.armour < atkB.dmgMin)
    (htgA : a.target = some b.id) (htgB : b.target = some a.id) :
    (processBlock ctx ⟨[a, b], rg, og, [], ks, nid⟩ [] h rnd).characters = []
    ∧ lookupKills (processBlock ctx ⟨[a, b], rg, og, [], ks, nid⟩ [] h rnd).kills
        a.owner = lookupKills ks a.owner + 1
    ∧ lookupKills (processBlock ctx ⟨[a, b], rg, og, [], ks, nid⟩ [] h rnd).kills
        b.owner = lookupKills ks b.owner + 1
    ∧ (⟨b.id, a.id, h⟩ : DLEntry)
        ∈ (processBlock ctx ⟨[a, b], rg, og, [], ks, nid⟩ [] h rnd).damageLists
    ∧ (⟨a.id, b.id, h⟩ : DLEntry)
        ∈ (processBlock ctx ⟨[a, b], rg, og, [], ks, nid⟩ [] h rnd).damageLists := by
  have hidb : ¬ b.id = a.id := fun e => hid e.symm
  have hfacb : ¬ b.faction = a.faction := fun e => hfac e.symm
  have hraMax : hexDist a.pos b.pos ≤ maxAttackRange a :=
    le_trans hrA (range_le_maxAttackRange haA)
  have hrbMax : hexDist b.pos a.pos ≤ maxAttackRange b :=
    le_trans hrB (range_le_maxAttackRange haB)
  -- target acquisition
  have hfa0 : findChar (⟨[a, b], rg, og, [], ks, nid⟩ : GameState) a.id = some a := by
    simp [findChar, List.find?]
  have hcandsA : List.filter
      (fun o => o.faction ≠ a.faction ∧ hexDist a.pos o.pos ≤ maxAttackRange a)
      [a, b] = [b] := by
    simp only [List.filter_cons, List.filter_nil]
    rw [if_neg (fun hc => (of_decide_eq_true hc).1 rfl),
      if_pos (decide_eq_true ⟨hfacb, hraMax⟩)]
  have hfb0 : findChar
      (⟨[{a with target := some b.id}, b], rg, og, [], ks, nid⟩ : GameState) b.id
      = some b := by
    simp [findChar, List.find?, hid]
  have hcandsB : List.filter
      (fun o => o.faction ≠ b.faction ∧ hexDist b.pos o.pos ≤ maxAttackRange b)
      [{a with target := some b.id}, b] = [{a with target := some b.id}] := by
    simp only [List.filter_cons, List.filter_nil]
    rw [if_pos (decide_eq_true ⟨hfac, hrbMax⟩),
      if_neg (fun hc => (of_decide_eq_true hc).1 rfl)]
  have eT : findCombatTargets (⟨[a, b], rg, og, [], ks, nid⟩ : GameState) rnd
      = (⟨[{a with target := some b.id}, {b with target := some a.id}],
          rg, og, [], ks, nid⟩,
         (rndNext (rndNext rnd).2).2) := by
    unfold findCombatTargets
    dsimp only
    rw [show List.filter (fun c => ¬ c.attacks.isEmpty) [a, b] = [a, b] from by
      simp only [List.filter_cons, List.filter_nil]
      rw [if_pos (decide_eq_true (by
            rw [isEmpty_false_of_mem haA]; exact Bool.false_ne_true)),
        if_pos (decide_eq_true (by
            rw [isEmpty_false_of_mem haB]; exact Bool.false_ne_true))]]
    dsimp only [List.map_cons, List.map_nil, List.foldl_cons, List.foldl_nil]
    rw [findTargetFor_eval _ _ a.id a b hfa0 hcandsA hraMax]
    rw [updateChar_pair_fst a b rg og [] ks nid a.id _ rfl hidb]
    try dsimp only
    rw [findTargetFor_eval _ _ b.id b {a with target := some b.id} hfb0 hcandsB
      hrbMax]
    rw [updateChar_pair_snd {a with target := some b.id} b rg og [] ks nid b.id
      _ hid rfl]
  -- damage rolls and resulting hit points
  obtain ⟨hpB, rnd3, hfoldA⟩ : ∃ p q,
      (a.attacks.filter (fun atk => hexDist a.pos b.pos ≤ atk.range)).foldl
        attackStep (b.hp, (rndNext (rndNext rnd).2).2) = (p, q) := ⟨_, _, rfl⟩
  obtain ⟨hpA, rnd4, hfoldB⟩ : ∃ p q,
      (b.attacks.filter (fun atk => hexDist b.pos a.pos ≤ atk.range)).foldl
        attackStep (a.hp, rnd3) = (p, q) := ⟨_, _, rfl⟩
  have hBdead : hpB.shield = 0 ∧ hpB.armour = 0 := by
    have hx := foldl_attackStep_lethal
      (a.attacks.filter (fun atk => hexDist a.pos b.pos ≤ atk.range)) b.hp
      ((rndNext (rndNext rnd).2).2)
      ⟨atkA, List.mem_filter.mpr ⟨haA, decide_eq_true hrA⟩, hlA⟩
    rw [hfoldA] at hx
    exact hx
  have hAdead : hpA.shield = 0 ∧ hpA.armour = 0 := by
    have hx := foldl_attackStep_lethal
      (b.attacks.filter (fun atk => hexDist b.pos a.pos ≤ atk.range)) a.hp rnd3
      ⟨atkB, List.mem_filter.mpr ⟨haB, decide_eq_true hrB⟩, hlB⟩
    rw [hfoldB] at hx
    exact hx
  have hneA : (a.attacks.filter
      (fun atk => hexDist a.pos b.pos ≤ atk.range)).isEmpty = false :=
    isEmpty_false_of_mem (List.mem_filter.mpr ⟨haA, decide_eq_true hrA⟩)
  have hneB : (b.attacks.filter
      (fun atk => hexDist b.pos a.pos ≤ atk.range)).isEmpty = false :=
    isEmpty_false_of_mem (List.mem_filter.mpr ⟨haB, decide_eq_true hrB⟩)
  -- the damage phase
  have hfa1 : findChar (⟨[{a with target := some b.id},
      {b with target := some a.id}], rg, og, [], ks, nid⟩ : GameState) a.id
      = some {a with target := some b.id} := by
    simp [findChar, List.find?]
  have hfv1 : findChar (⟨[{a with target := some b.id},
      {b with target := some a.id}], rg, og, [], ks, nid⟩ : GameState) b.id
      = some {b with target := some a.id} := by
    simp [findChar, List.find?, hid]
  have hfb2 : findChar (⟨[{a with target := some b.id},
      {b with target := some a.id, hp := hpB}], rg, og, [⟨b.id, a.id, h⟩],
      ks, nid⟩ : GameState) b.id
      = some {b with target := some a.id, hp := hpB} := by
    simp [findChar, List.find?, hid]
  have hfv2 : findChar (⟨[{a with target := some b.id},
      {b with target := some a.id, hp := hpB}], rg, og, [⟨b.id, a.id, h⟩],
      ks, nid⟩ : GameState) a.id
      = some {a with target := some b.id} := by
    simp [findChar, List.find?]
  have eD : dealCombatDamage h
      (⟨[{a with target := some b.id}, {b with target := some a.id}],
        rg, og, [], ks, nid⟩ : GameState) ((rndNext (rndNext rnd).2).2)
      = (⟨[{a with target := some b.id, hp := hpA},
           {b with target := some a.id, hp := hpB}],
          rg, og, [⟨b.id, a.id, h⟩, ⟨a.id, b.id, h⟩], ks, nid⟩,
         rnd4, [a.id, b.id]) := by
    unfold dealCombatDamage
    dsimp only
    rw [show List.filter (fun c => c.target.isSome)
        ([{a with target := some b.id}, {b with target := some a.id}] :
          List Character)
        = [{a with target := some b.id}, {b with target := some a.id}] from rfl]
    dsimp only [List.map_cons, List.map_nil, List.foldl_cons, List.foldl_nil]
    rw [dealDamageFrom_eval2 h _ _ a.id b.id {a with target := some b.id}
      {b with target := some a.id}
      (a.attacks.filter (fun atk => hexDist a.pos b.pos ≤ atk.range))
      hpB rnd3 hfa1 rfl hfv1 rfl hneA hfoldA]
    rw [updateChar_pair_snd {a with target := some b.id}
      {b with target := some a.id} rg og [] ks nid b.id _ hid rfl]
    try dsimp only
    rw [show addDLHit (⟨[{a with target := some b.id},
          {b with target := some a.id, hp := hpB}], rg, og, [], ks, nid⟩ :
          GameState) b.id a.id h
        = ⟨[{a with target := some b.id},
            {b with target := some a.id, hp := hpB}],
           rg, og, [⟨b.id, a.id, h⟩], ks, nid⟩ from rfl]
    rw [dealDamageFrom_eval2 h _ _ b.id a.id
      {b with target := some a.id, hp := hpB} {a with target := some b.id}
      (b.attacks.filter (fun atk => hexDist b.pos a.pos ≤ atk.range))
      hpA rnd4 hfb2 rfl hfv2 rfl hneB hfoldB]
    rw [updateChar_pair_fst {a with target := some b.id}
      {b with target := some a.id, hp := hpB} rg og [⟨b.id, a.id, h⟩] ks nid
      a.id _ rfl hidb]
    try dsimp only
    rw [show addDLHit (⟨[{a with target := some b.id, hp := hpA},
          {b with target := some a.id, hp := hpB}], rg, og,
          [⟨b.id, a.id, h⟩], ks, nid⟩ : GameState) a.id b.id h
        = ⟨[{a with target := some b.id, hp := hpA},
            {b with target := some a.id, hp := hpB}],
           rg, og, [⟨b.id, a.id, h⟩, ⟨a.id, b.id, h⟩], ks, nid⟩ from by
      unfold addDLHit
      dsimp only
      rw [show List.filter (fun e => ¬ (e.victim = a.id ∧ e.attacker = b.id))
          [(⟨b.id, a.id, h⟩ : DLEntry)] = [(⟨b.id, a.id, h⟩ : DLEntry)] from by
        simp only [List.filter_cons, List.filter_nil]
        rw [if_pos (decide_eq_true (show
          ¬ ((⟨b.id, a.id, h⟩ : DLEntry).victim = a.id
              ∧ (⟨b.id, a.id, h⟩ : DLEntry).attacker = b.id) from
          fun hc => hidb hc.1))]]
      rfl]
    try dsimp only
    rw [show List.filter (fun c => c.hp.shield = 0 ∧ c.hp.armour = 0)
        ([{a with target := some b.id, hp := hpA},
          {b with target := some a.id, hp := hpB}] : List Character)
        = [{a with target := some b.id, hp := hpA},
           {b with target := some a.id, hp := hpB}] from by
      simp only [List.filter_cons, List.filter_nil]
      rw [if_pos (decide_eq_true hAdead), if_pos (decide_eq_true hBdead)]]
    try dsimp only [List.map_cons, List.map_nil]
  -- kill processing
  have hfk1 : findChar (⟨[{a with target := some b.id, hp := hpA},
      {b with target := some a.id, hp := hpB}], rg, og,
      [⟨b.id, a.id, h⟩, ⟨a.id, b.id, h⟩], ks, nid⟩ : GameState) b.id
      = some {b with target := some a.id, hp := hpB} := by
    simp [findChar, List.find?, hid]
  have hfk2 : findChar (⟨[{a with target := some b.id, hp := hpA},
      {b with target := some a.id, hp := hpB}], rg, og,
      [⟨b.id, a.id, h⟩, ⟨a.id, b.id, h⟩], ks, nid⟩ : GameState) a.id
      = some {a with target := some b.id, hp := hpA} := by
    simp [findChar, List.find?]
  have eK : processKills (⟨[{a with target := some b.id, hp := hpA},
      {b with target := some a.id, hp := hpB}], rg, og,
      [⟨b.id, a.id, h⟩, ⟨a.id, b.id, h⟩], ks, nid⟩ : GameState) [a.id, b.id]
      = ⟨[],
         rg.map (fun kr => if [a.id, b.id].contains kr.2.prospectingCharacter
           then (kr.1, { kr.2 with prospectingCharacter := 0 }) else kr),
         og.filter (fun o => ¬ [a.id, b.id].contains o.characterId),
         [⟨b.id, a.id, h⟩, ⟨a.id, b.id, h⟩],
         bumpKills (bumpKills ks b.owner) a.owner, nid⟩ := by
    unfold processKills
    dsimp only [List.foldl_cons, List.foldl_nil]
    rw [show List.filter (fun e => e.victim = a.id)
        ([⟨b.id, a.id, h⟩, ⟨a.id, b.id, h⟩] : List DLEntry)
        = [(⟨a.id, b.id, h⟩ : DLEntry)] from by
      simp only [List.filter_cons, List.filter_nil]
      rw [if_neg (fun hc => hidb (of_decide_eq_true hc))]
      rfl]
    dsimp only [List.map_cons, List.map_nil, List.foldl_cons, List.foldl_nil]
    rw [hfk1]
    try dsimp only
    rw [show List.filter (fun e => e.victim = b.id)
        ([⟨b.id, a.id, h⟩, ⟨a.id, b.id, h⟩] : List DLEntry)
        = [(⟨b.id, a.id, h⟩ : DLEntry)] from by
      simp only [List.filter_cons, List.filter_nil]
      rw [if_neg (fun hc => hid (of_decide_eq_true hc))]
      rfl]
    dsimp only [List.map_cons, List.map_nil, List.foldl_cons, List.foldl_nil]
    rw [hfk2]
    try dsimp only
    rw [show List.filter (fun c => ¬ [a.id, b.id].contains c.id)
        ([{a with target := some b.id, hp := hpA},
          {b with target := some a.id, hp := hpB}] : List Character)
        = ([] : List Character) from by
      simp]
  have eFin : processBlock ctx (⟨[a, b], rg, og, [], ks, nid⟩ : GameState)
      [] h rnd
      = ⟨[],
         rg.map (fun kr => if [a.id, b.id].contains kr.2.prospectingCharacter
           then (kr.1, { kr.2 with prospectingCharacter := 0 }) else kr),
         og.filter (fun o => ¬ [a.id, b.id].contains o.characterId),
         [⟨b.id, a.id, h⟩, ⟨a.id, b.id, h⟩],
         bumpKills (bumpKills ks b.owner) a.owner, nid⟩ := by
    unfold processBlock
    dsimp only
    rw [show processMoves ctx h
        (ageDamageLists h ⟨[a, b], rg, og, [], ks, nid⟩) []
        = (⟨[a, b], rg, og, [], ks, nid⟩ : GameState) from rfl]
    rw [eT]
    try dsimp only
    rw [eD]
    try dsimp only
    rw [eK]
    rfl
  refine ⟨?_, ?_, ?_, ?_, ?_⟩
  · rw [eFin]
  · rw [eFin]
    try dsimp only
    rw [lookupKills_bumpKills_self, lookupKills_bumpKills_other ks a.owner
      b.owner hown]
  · rw [eFin]
    try dsimp only
    rw [lookupKills_bumpKills_other (bumpKills ks b.owner) b.owner a.owner
      (fun e => hown e.symm), lookupKills_bumpKills_self]
  · rw [eFin]
    exact List.mem_cons_self _ _
  · rw [eFin]
    exact List.mem_cons_of_mem _ (List.mem_cons_self _ _)

/-- Witness for C1: two adjacent characters (ids 1 and 2, owners `red` and
`green`, opposing factions) with a range-1 attack of damage 2 against
1 HP of shield each, targeting each other; processing block 5 deletes
both rows. -/
theorem C1_mutual_kill_witness :
    (processBlock ⟨fun _ => 0, fun _ _ => false, 10⟩
        ⟨[⟨1, "red", Faction.red, ⟨0, 0⟩, 0, 0, none, 0, none, [⟨1, 2, 2⟩],
            ⟨0, 1, 0⟩, ⟨⟨0, 1, 0⟩, 0⟩, some 2⟩,
          ⟨2, "green", Faction.green, ⟨1, 0⟩, 0, 0, none, 0, none, [⟨1, 2, 2⟩],
            ⟨0, 1, 0⟩, ⟨⟨0, 1, 0⟩, 0⟩, some 1⟩],
         [], [], [], [], 7⟩ [] 5 ⟨fun _ => 0, 0⟩).characters = [] :=
  (C1_mutual_kill ⟨fun _ => 0, fun _ _ => false, 10⟩ 5 ⟨fun _ => 0, 0⟩
    ⟨1, "red", Faction.red, ⟨0, 0⟩, 0, 0, none, 0, none, [⟨1, 2, 2⟩],
      ⟨0, 1, 0⟩, ⟨⟨0, 1, 0⟩, 0⟩, some 2⟩
    ⟨2, "green", Faction.green, ⟨1, 0⟩, 0, 0, none, 0, none, [⟨1, 2, 2⟩],
      ⟨0, 1, 0⟩, ⟨⟨0, 1, 0⟩, 0⟩, some 1⟩
    [] [] [] 7 (by decide) (by decide) (by decide)
    ⟨1, 2, 2⟩ (by decide) (by decide) (by decide)
    ⟨1, 2, 2⟩ (by decide) (by decide) (by decide) rfl rfl).1

end Taurion
